import Mathlib

/-!
Verification of the BTF-to-Rust type-definition generator
(`libbpf-cargo/src/gen/{btf.rs, definition.rs, visit.rs}`).

The type graph is shallowly embedded: a `Btf` is a list of nodes indexed
by type id, each node carrying its optional name, its kind (the closed
set of BTF kinds), and the natural alignment reported by the graph
adapter (`BtfType::alignment`, supplied by the external libbpf library,
hence modelled as per-node data).

Fallible Rust code returns `Except Fault`; `Fault.error` models a
returned failure (`bail!` / `ensure!` / `?`), while `Fault.abort` models
a process abort (a failed `assert!`, `Option::unwrap` on `None`, or an
out-of-bounds index), which in Rust unwinds past all error handling.
Mutable session state (the anonymous-name registry, the visited set) is
threaded explicitly and is returned alongside the result even on
failure, mirroring mutation through `&mut` references, which persists
when a function returns `Err`.
-/

/-- Integer encodings of a BTF `Int` node (`types::IntEncoding`). -/
inductive IntEncoding where
  | signed
  | noneE
  | char
  | boolE
  deriving Repr, DecidableEq

/-- Attribute of a composite member (`types::MemberAttr`): a normal member
with a bit offset, or a bitfield with bit offset and width. -/
inductive MemberAttr where
  | normal (bitOffset : Nat)
  | bitField (bitOffset : Nat) (bits : Nat)
  deriving Repr, DecidableEq

/-- One member of a struct or union. -/
structure Member where
  name : Option String
  ty : Nat
  attr : MemberAttr
  deriving Repr, DecidableEq

/-- One declared enumerator: optional name and signed discriminant. -/
structure EnumValue where
  name : Option String
  value : Int
  deriving Repr, DecidableEq

/-- One entry of a `DataSec` node: target type id, byte offset, byte size. -/
structure DataSecVar where
  ty : Nat
  offset : Nat
  size : Nat
  deriving Repr, DecidableEq

/-- Linkage of a `Var` node (`types::Linkage`); the generator only tests
for `Static`. -/
inductive Linkage where
  | staticL
  | globalL
  deriving Repr, DecidableEq

/-- The closed set of BTF type kinds with the per-kind payload used by the
generator. -/
inductive TypeKind where
  | void
  | int (bits : Nat) (enc : IntEncoding)
  | float (size : Nat)
  | ptr (ref : Nat)
  | array (elem : Nat) (capacity : Nat)
  | structK (size : Nat) (members : List Member)
  | unionK (size : Nat) (members : List Member)
  | enumK (size : Nat) (values : List EnumValue)
  | enum64 (size : Nat) (values : List EnumValue)
  | typedef (ref : Nat)
  | constK (ref : Nat)
  | volatileK (ref : Nat)
  | restrictK (ref : Nat)
  | fwd
  | func (ref : Nat)
  | funcProto
  | var (ref : Nat) (linkage : Linkage)
  | dataSec (size : Nat) (vars : List DataSecVar)
  | declTag (ref : Nat)
  | typeTag (ref : Nat)
  deriving Repr, DecidableEq

/-- One node of the type graph: name, kind, and the natural alignment the
graph adapter reports for it (`None` models a failing alignment query). -/
structure BtfNode where
  name : Option String
  kind : TypeKind
  align : Option Nat
  deriving Repr, DecidableEq

/-- The immutable type graph for one generation session, indexed by type
id, plus the session-global pointer width. -/
structure Btf where
  types : List BtfNode
  ptrSize : Nat
  deriving Repr, DecidableEq

/-- `btf.type_by_id`: look a node up by type id. -/
def Btf.lookup (btf : Btf) (i : Nat) : Option BtfNode :=
  btf.types[i]?

/-- A failure outcome: `error` is a returned failure (`bail!`, `ensure!`,
a propagated `?`), `abort` is a process abort (failed `assert!`,
`Option::unwrap` on `None`, out-of-bounds indexing). -/
inductive Fault where
  | error (msg : String)
  | abort (msg : String)
  deriving Repr, DecidableEq

/-- The `Debug` rendering of `BtfKind` used in error messages. -/
def kindName : TypeKind → String
  | .void => "Void"
  | .int _ _ => "Int"
  | .float _ => "Float"
  | .ptr _ => "Ptr"
  | .array _ _ => "Array"
  | .structK _ _ => "Struct"
  | .unionK _ _ => "Union"
  | .enumK _ _ => "Enum"
  | .enum64 _ _ => "Enum64"
  | .typedef _ => "Typedef"
  | .constK _ => "Const"
  | .volatileK _ => "Volatile"
  | .restrictK _ => "Restrict"
  | .fwd => "Fwd"
  | .func _ => "Func"
  | .funcProto => "FuncProto"
  | .var _ _ => "Var"
  | .dataSec _ _ => "DataSec"
  | .declTag _ => "DeclTag"
  | .typeTag _ => "TypeTag"

/-- The byte-width table shared by the integer branch of
`type_declaration` and by `visit_enum`: supported byte sizes map to the
bit-width suffix of the Rust type, everything else is unsupported. -/
def widthStr (bytes : Nat) : Option String :=
  match bytes with
  | 1 => some "8"
  | 2 => some "16"
  | 4 => some "32"
  | 8 => some "64"
  | 16 => some "128"
  | _ => none

/-- Modelled from the spec: `BtfType::skip_mods_and_typedefs` (provided by
the libbpf-rs crate of this repository, not under `src/`) resolves
qualifier wrappers and typedefs — it follows `Typedef`, `Const`,
`Volatile` and `Restrict` links until a non-wrapper kind is reached.
Fuelled to stay total on (malformed) cyclic graphs. -/
def skipModsAndTypedefs (btf : Btf) : Nat → Nat → Nat
  | 0, i => i
  | fuel + 1, i =>
    match btf.lookup i with
    | some node =>
      match node.kind with
      | .typedef r => skipModsAndTypedefs btf fuel r
      | .constK r => skipModsAndTypedefs btf fuel r
      | .volatileK r => skipModsAndTypedefs btf fuel r
      | .restrictK r => skipModsAndTypedefs btf fuel r
      | _ => i
    | none => i

/-- Modelled from the spec: `BtfType::next_type` (libbpf-rs crate of this
repository, not under `src/`) returns the referenced type of a
reference kind and `None` otherwise. -/
def nextRef : TypeKind → Option Nat
  | .ptr r => some r
  | .typedef r => some r
  | .constK r => some r
  | .volatileK r => some r
  | .restrictK r => some r
  | .func r => some r
  | .var r _ => some r
  | .declTag r => some r
  | .typeTag r => some r
  | _ => none

/-- `next_type` (btf.rs): starting from a type, find the next
struct/union/enum/enum64/datasec reachable through array elements and
reference links, if any. -/
def nextType (btf : Btf) : Nat → Nat → Except Fault (Option Nat)
  | 0, _ => .error (.error "fuel exhausted")
  | fuel + 1, i =>
    match btf.lookup i with
    | none => .error (.abort "type lookup failed")
    | some node =>
      match node.kind with
      | .structK _ _ => .ok (some i)
      | .unionK _ _ => .ok (some i)
      | .enumK _ _ => .ok (some i)
      | .enum64 _ _ => .ok (some i)
      | .dataSec _ _ => .ok (some i)
      | .array elem _ => nextType btf fuel elem
      | k =>
        match nextRef k with
        | some r => nextType btf fuel r
        | none => .ok none

/-- The anonymous-type name registry (`AnonTypes`): an insertion-ordered
map from type id to the 1-based counter value assigned at first request
(the `HashMap<TypeId, usize>`; only its length and lookups matter). -/
structure AnonTypes where
  types : List (Nat × Nat)
  deriving Repr, DecidableEq

/-- First-match lookup in the registry's association list. -/
def lookupAnon : List (Nat × Nat) → Nat → Option Nat
  | [], _ => none
  | (k, v) :: rest, i => if k = i then some v else lookupAnon rest i

/-- `AnonTypes::type_name_or_anon`: a named node keeps its name; an
anonymous node gets `"__anon_" ++ N` where `N` is memoized per type id,
fresh ids receiving `len + 1` (1-based). -/
def typeNameOrAnon (an : AnonTypes) (tid : Nat) (nm : Option String) :
    String × AnonTypes :=
  match nm with
  | some n => (n, an)
  | none =>
    let len := an.types.length + 1
    match lookupAnon an.types tid with
    | some k => ("__anon_" ++ toString k, an)
    | none => ("__anon_" ++ toString len, ⟨an.types ++ [(tid, len)]⟩)

/-- The fixed, sorted table of Rust keywords that must be raw-escaped
(`escape_reserved_keyword`). -/
def reservedKeywords : List String :=
  ["Self", "abstract", "as", "async", "await", "become", "box", "crate",
   "dyn", "enum", "final", "fn", "impl", "in", "let", "loop", "macro",
   "match", "mod", "move", "mut", "override", "priv", "pub", "ref",
   "self", "super", "trait", "try", "type", "typeof", "unsafe",
   "unsized", "use", "virtual", "where", "yield"]

/-- `escape_reserved_keyword`: binary search over the sorted keyword
table, i.e. membership; hits are prefixed with `r#`. -/
def escapeReservedKeyword (s : String) : String :=
  if reservedKeywords.contains s then "r#" ++ s else s

/-- `is_unsafe` (btf.rs): after resolving qualifiers and typedefs, a type
is valid-for-any-bit-pattern-unsafe iff it is a bool-encoded integer or
an enumeration (Enum or Enum64). -/
def isUnsafeBitPattern (btf : Btf) (i : Nat) : Bool :=
  let j := skipModsAndTypedefs btf (btf.types.length + 1) i
  match btf.lookup j with
  | some node =>
    match node.kind with
    | .int _ enc => enc = .boolE
    | .enumK _ _ => true
    | .enum64 _ _ => true
    | _ => false
  | none => false

/-- View of a struct or union node as the generator's `types::Composite`. -/
structure Composite where
  tid : Nat
  cname : Option String
  isStruct : Bool
  size : Nat
  members : List Member
  align : Option Nat
  deriving Repr, DecidableEq

/-- The member scan of `is_struct_packed`: every member's type alignment
is queried (an `unwrap` of the id lookup, then a fallible alignment
query); only normal members are then tested for natural alignment of
their bit offset. -/
def packedLoop (btf : Btf) : List Member → Except Fault Bool
  | [] => .ok false
  | m :: rest =>
    match btf.lookup m.ty with
    | none => .error (.abort "type lookup failed")
    | some node =>
      match node.align with
      | none => .error (.error "alignment query failed")
      | some a =>
        match m.attr with
        | .normal off =>
          if off % (a * 8) ≠ 0 then .ok true else packedLoop btf rest
        | .bitField _ _ => packedLoop btf rest

/-- `is_struct_packed` (btf.rs): unions are never packed; a struct is
packed if its size is not a multiple of its alignment or some normal
member's bit offset is not a multiple of that member's alignment in
bits. -/
def isStructPacked (btf : Btf) (c : Composite) : Except Fault Bool :=
  if !c.isStruct then .ok false
  else
    match c.align with
    | none => .error (.error "alignment query failed")
    | some align =>
      if c.size % align ≠ 0 then .ok true
      else packedLoop btf c.members

/-- `required_padding` (btf.rs): with `current ≤ required` enforced first,
alignment is 1 when packed, otherwise the queried natural alignment
capped at 4; the result is 0 when rounding `current` up to that
alignment lands exactly on `required`, else `required - current`. -/
def requiredPadding (current required : Nat) (tyAlign : Option Nat)
    (packed : Bool) : Except Fault Nat :=
  if current ≤ required then
    let alignQ : Option Nat :=
      if packed then some 1
      else
        match tyAlign with
        | none => none
        | some a => some (if a > 4 then 4 else a)
    match alignQ with
    | none => .error (.error "alignment query failed")
    | some align =>
      let alignedOffset := (current + align - 1) / align * align
      if alignedOffset = required then .ok 0 else .ok (required - current)
  else
    .error (.error ("current offset (" ++ toString current ++
      ") ahead of required offset (" ++ toString required ++ ")"))

/-- `size_of_type` (btf.rs): recursive size computation after resolving
qualifiers and typedefs. -/
def sizeOfType (btf : Btf) : Nat → Nat → Except Fault Nat
  | 0, _ => .error (.error "fuel exhausted")
  | fuel + 1, i =>
    let j := skipModsAndTypedefs btf (btf.types.length + 1) i
    match btf.lookup j with
    | none => .error (.abort "type lookup failed")
    | some node =>
      match node.kind with
      | .int bits _ => .ok ((bits + 7) / 8)
      | .ptr _ =>
        if btf.ptrSize = 0 then .error (.error "pointer size query failed")
        else .ok btf.ptrSize
      | .array elem cap =>
        match sizeOfType btf fuel elem with
        | .ok s => .ok (cap * s)
        | .error e => .error e
      | .structK sz _ => .ok sz
      | .unionK sz _ => .ok sz
      | .enumK sz _ => .ok sz
      | .enum64 sz _ => .ok sz
      | .var r _ => sizeOfType btf fuel r
      | .dataSec sz _ => .ok sz
      | .float sz => .ok sz
      | k => .error (.error ("Cannot get size of type_id: " ++ kindName k))

/-- `type_declaration` (btf.rs): the Rust type-reference expression of a
resolved type. Mutates only the anonymous-name registry, which is
returned even on failure. -/
def typeDeclaration (btf : Btf) : Nat → Nat → AnonTypes →
    Except Fault String × AnonTypes
  | 0, _, an => (.error (.error "fuel exhausted"), an)
  | fuel + 1, i, an =>
    let j := skipModsAndTypedefs btf (btf.types.length + 1) i
    match btf.lookup j with
    | none => (.error (.abort "type lookup failed"), an)
    | some node =>
      match node.kind with
      | .void => (.ok "std::ffi::c_void", an)
      | .int bits enc =>
        match widthStr ((bits + 7) / 8) with
        | none => (.error (.error "Invalid integer width"), an)
        | some w =>
          match enc with
          | .signed => (.ok ("i" ++ w), an)
          | .boolE =>
            if bits = 8 then (.ok "bool", an)
            else
              (.error (.abort
                "assertion failed: t.bits as usize == (size_of::<bool>() * 8)"),
               an)
          | .char => (.ok ("u" ++ w), an)
          | .noneE => (.ok ("u" ++ w), an)
      | .float sz =>
        match sz with
        | 2 => (.error (.error "Unsupported float width"), an)
        | 4 => (.ok "f32", an)
        | 8 => (.ok "f64", an)
        | 12 => (.error (.error "Unsupported float width"), an)
        | 16 => (.error (.error "Unsupported float width"), an)
        | _ => (.error (.error "Invalid float width"), an)
      | .ptr r =>
        match typeDeclaration btf fuel r an with
        | (.ok s, an') => (.ok ("*mut " ++ s), an')
        | (.error e, an') => (.error e, an')
      | .array elem cap =>
        match typeDeclaration btf fuel elem an with
        | (.ok s, an') =>
          (.ok ("[" ++ s ++ "; " ++ toString cap ++ "]"), an')
        | (.error e, an') => (.error e, an')
      | .structK _ _ =>
        let p := typeNameOrAnon an j node.name
        (.ok p.1, p.2)
      | .unionK _ _ =>
        let p := typeNameOrAnon an j node.name
        (.ok p.1, p.2)
      | .enumK _ _ =>
        let p := typeNameOrAnon an j node.name
        (.ok p.1, p.2)
      | .enum64 _ _ =>
        let p := typeNameOrAnon an j node.name
        (.ok p.1, p.2)
      | .fwd => (.ok "std::ffi::c_void", an)
      | .func _ => (.ok "std::ffi::c_void", an)
      | .funcProto => (.ok "std::ffi::c_void", an)
      | .var r _ => typeDeclaration btf fuel r an
      | k => (.error (.error ("Invalid type: " ++ kindName k)), an)

/-- `type_default` (btf.rs): the Rust default-value expression of a
resolved type. The array branch wraps a returned failure of the element
in context (but an abort, being a panic, passes through unchanged). -/
def typeDefault (btf : Btf) : Nat → Nat → AnonTypes →
    Except Fault String × AnonTypes
  | 0, _, an => (.error (.error "fuel exhausted"), an)
  | fuel + 1, i, an =>
    let j := skipModsAndTypedefs btf (btf.types.length + 1) i
    match btf.lookup j with
    | none => (.error (.abort "type lookup failed"), an)
    | some node =>
      match node.kind with
      | .int _ _ =>
        match typeDeclaration btf (fuel + 1) j an with
        | (.ok s, an') => (.ok (s ++ "::default()"), an')
        | (.error e, an') => (.error e, an')
      | .float _ =>
        match typeDeclaration btf (fuel + 1) j an with
        | (.ok s, an') => (.ok (s ++ "::default()"), an')
        | (.error e, an') => (.error e, an')
      | .ptr _ => (.ok "std::ptr::null_mut()", an)
      | .array elem cap =>
        match typeDefault btf fuel elem an with
        | (.ok d, an') =>
          (.ok ("[" ++ d ++ "; " ++ toString cap ++ "]"), an')
        | (.error (.error msg), an') =>
          (.error (.error ("in " ++ kindName (.array elem cap) ++ ": " ++ msg)),
           an')
        | (.error (.abort msg), an') => (.error (.abort msg), an')
      | .structK _ _ =>
        let p := typeNameOrAnon an j node.name
        (.ok (p.1 ++ "::default()"), p.2)
      | .unionK _ _ =>
        let p := typeNameOrAnon an j node.name
        (.ok (p.1 ++ "::default()"), p.2)
      | .enumK _ _ =>
        let p := typeNameOrAnon an j node.name
        (.ok (p.1 ++ "::default()"), p.2)
      | .enum64 _ _ =>
        let p := typeNameOrAnon an j node.name
        (.ok (p.1 ++ "::default()"), p.2)
      | .var r _ =>
        match typeDeclaration btf (fuel + 1) r an with
        | (.ok s, an') => (.ok (s ++ "::default()"), an')
        | (.error e, an') => (.error e, an')
      | k => (.error (.error ("Invalid type: " ++ kindName k)), an)

/-- The mutable session state shared across `type_definition` calls on one
`GenBtf`: the anonymous-name registry, the caller-supplied visited set
(insertion order kept for reasoning), and a ghost trace of the type ids
whose definitions were actually emitted (a node id is appended exactly
when the visitor passes its fresh-insertion guard). -/
structure Session where
  anon : AnonTypes
  visited : List Nat
  emitted : List Nat
  deriving Repr, DecidableEq

/-- Insert the node id into the visited set and the ghost emission trace
(the `self.visited.insert(ty.type_id())` succeeding). -/
def Session.insertId (st : Session) (tid : Nat) : Session :=
  { st with visited := st.visited ++ [tid], emitted := st.emitted ++ [tid] }

/-- View of a BTF enum node as the generator's `types::Enum`. -/
structure EnumView where
  tid : Nat
  ename : Option String
  size : Nat
  values : List EnumValue
  deriving Repr, DecidableEq

/-- View of a BTF datasec node as the generator's `types::DataSec`. -/
structure DataSecView where
  tid : Nat
  dname : Option String
  size : Nat
  vars : List DataSecVar
  deriving Repr, DecidableEq

/-- The `for (i, value)` loop body of `visit_enum`: one line per declared
value, `#[default]` prepended at index 0, each enumerator name unwrapped
(aborting when absent). -/
def enumLines : List EnumValue → Nat → Except Fault String
  | [], _ => .ok ""
  | v :: rest, i =>
    match v.name with
    | none => .error (.abort "called Option::unwrap on a None value")
    | some n =>
      match enumLines rest (i + 1) with
      | .ok s =>
        .ok ((if i = 0 then "    #[default]\n" else "") ++
          "    " ++ n ++ " = " ++ toString v.value ++ ",\n" ++ s)
      | .error e => .error e

/-- The signedness scan of `visit_enum`: `"u"` unless a negative
enumerator value is found (first hit breaks the loop). -/
def enumSigned : List EnumValue → String
  | [] => "u"
  | v :: rest => if v.value < 0 then "i" else enumSigned rest

/-- `DefinitionVisitor::visit_enum`: skip if visited, fail on an
unsupported declared size, then emit derive/repr lines, the enum header
and one enumerator line per declared value. -/
def visitEnum (e : EnumView) (st : Session) (defn : String) :
    Except Fault String × Session :=
  if st.visited.contains e.tid then (.ok defn, st)
  else
    let st := st.insertId e.tid
    match widthStr e.size with
    | none => (.error (.error ("Invalid enum size: " ++ toString e.size)), st)
    | some w =>
      let signed := enumSigned e.values
      let p := typeNameOrAnon st.anon e.tid e.ename
      let st := { st with anon := p.2 }
      match enumLines e.values 0 with
      | .error e => (.error e, st)
      | .ok body =>
        (.ok (defn ++ "#[derive(Debug, Copy, Clone, Default, PartialEq, Eq)]\n" ++
          "#[repr(" ++ signed ++ w ++ ")]\n" ++
          "pub enum " ++ p.1 ++ " \x7b\n" ++ body ++ "\x7d\n"), st)

/-- The `name.starts_with('.')` test of `visit_datasec`, stated on the
character list so that it evaluates inside the kernel. -/
def startsWithDot (s : String) : Bool :=
  match s.data with
  | [] => false
  | c :: _ => c = '.'

/-- The `sec_name.remove(0)` of `visit_datasec`: drop the first character. -/
def dropFirstChar (s : String) : String :=
  ⟨s.data.drop 1⟩

/-- The member loop of `visit_datasec`: resolve each entry to a `Var`
node (a returned failure otherwise), drop static variables, collect the
next structured dependent, insert padding against the recorded byte
offset, and emit one named field per surviving variable. Mutates only
the anonymous-name registry. -/
def datasecLoop (btf : Btf) (fuel : Nat) : List DataSecVar → Nat → AnonTypes →
    Except Fault (List Nat × String) × AnonTypes
  | [], _, an => (.ok ([], ""), an)
  | dv :: rest, offset, an =>
    match btf.lookup dv.ty with
    | none =>
      (.error (.error "BTF is invalid! Datasec var does not point to a var"), an)
    | some vnode =>
      match vnode.kind with
      | .var _ linkage =>
        if linkage = .staticL then datasecLoop btf fuel rest offset an
        else
          match nextType btf fuel dv.ty with
          | .error e => (.error e, an)
          | .ok dep =>
            match requiredPadding offset dv.offset vnode.align false with
            | .error e => (.error e, an)
            | .ok padding =>
              let padText :=
                if padding ≠ 0 then
                  "    __pad_" ++ toString offset ++ ": [u8; " ++
                    toString padding ++ "],\n"
                else ""
              match vnode.name with
              | none => (.error (.abort "called Option::unwrap on a None value"), an)
              | some vname =>
                match typeDeclaration btf fuel dv.ty an with
                | (.error e, an) => (.error e, an)
                | (.ok vtype, an) =>
                  match datasecLoop btf fuel rest (dv.offset + dv.size) an with
                  | (.error e, an) => (.error e, an)
                  | (.ok (deps, body), an) =>
                    (.ok (dep.toList ++ deps,
                      padText ++ "    pub " ++ vname ++ ": " ++ vtype ++ ",\n" ++
                        body), an)
      | _ =>
        (.error (.error "BTF is invalid! Datasec var does not point to a var"), an)

/-- `DefinitionVisitor::visit_datasec`: skip if visited, validate and
strip the section-name prefix, then emit the section's struct around the
member loop's output. -/
def visitDatasec (btf : Btf) (fuel : Nat) (d : DataSecView) (st : Session)
    (defn : String) : Except Fault (List Nat × String) × Session :=
  if st.visited.contains d.tid then (.ok ([], defn), st)
  else
    let st := st.insertId d.tid
    match d.dname with
    | none => (.error (.error "Datasec name is empty"), st)
    | some s =>
      if !startsWithDot s then
        (.error (.error ("Datasec name is invalid: " ++ s)), st)
      else
        let secName := dropFirstChar s
        match datasecLoop btf fuel d.vars 0 st.anon with
        | (.error e, an) => (.error e, { st with anon := an })
        | (.ok (deps, body), an) =>
          (.ok (deps, defn ++ "#[derive(Debug, Copy, Clone)]\n" ++
            "#[repr(C)]\n" ++ "pub struct " ++ secName ++ " \x7b\n" ++
            body ++ "\x7d\n"), { st with anon := an })

/-- The accumulator of the member loop of `visit_composite`: current byte
offset, collected field lines, collected default-impl lines, whether an
explicit `Default` impl is forced, and discovered dependents. -/
structure CompAcc where
  offset : Nat
  agg : List String
  impl : List String
  genImplDefault : Bool
  deps : List Nat
  deriving Repr, DecidableEq

/-- Tail of one `visit_composite` member iteration: advance the offset to
the member's end and append the field line (the declaration wrapped in
`MaybeUninit` for bit-pattern-unsafe types). -/
def compositeStepTail (btf : Btf) (fuel : Nat) (memberOffset ftid : Nat)
    (fieldName : String) (acc : CompAcc) (an : AnonTypes) :
    Except Fault CompAcc × AnonTypes :=
  match sizeOfType btf fuel ftid with
  | .error e => (.error e, an)
  | .ok fsz =>
    let acc := { acc with offset := memberOffset / 8 + fsz }
    match typeDeclaration btf fuel ftid an with
    | (.error e, an) => (.error e, an)
    | (.ok tdecl, an) =>
      let tdecl :=
        if isUnsafeBitPattern btf ftid then
          "std::mem::MaybeUninit<" ++ tdecl ++ ">"
        else tdecl
      (.ok { acc with
        agg := acc.agg ++ ["    pub " ++ fieldName ++ ": " ++ tdecl ++ ","] },
       an)

/-- The `type_default` match of one `visit_composite` member iteration: a
successful default is recorded (wrapped in `MaybeUninit::new` for
bit-pattern-unsafe types); a returned failure is fatal when an explicit
impl is already forced or the aggregate is a union, and is silently
swallowed otherwise; an abort always propagates. -/
def compositeStepRest (btf : Btf) (fuel : Nat) (isStruct : Bool)
    (memberOffset ftid : Nat) (fieldName : String) (acc : CompAcc)
    (an : AnonTypes) : Except Fault CompAcc × AnonTypes :=
  match typeDefault btf fuel ftid an with
  | (.ok d, an) =>
    let d :=
      if isUnsafeBitPattern btf ftid then
        "std::mem::MaybeUninit::new(" ++ d ++ ")"
      else d
    let acc := { acc with
      impl := acc.impl ++ ["            " ++ fieldName ++ ": " ++ d] }
    compositeStepTail btf fuel memberOffset ftid fieldName acc an
  | (.error (.abort msg), an) => (.error (.abort msg), an)
  | (.error (.error msg), an) =>
    if acc.genImplDefault || !isStruct then
      (.error (.error ("Could not construct a necessary Default Impl: " ++ msg)),
       an)
    else
      compositeStepTail btf fuel memberOffset ftid fieldName acc an

/-- The struct-only part of one `visit_composite` member iteration:
insert padding against the member's byte offset, then force an explicit
`Default` impl for big arrays, pointers and bit-pattern-unsafe field
types. -/
def compositeStepStruct (btf : Btf) (fuel : Nat) (isStruct packed : Bool)
    (memberOffset : Nat) (rawAlign : Option Nat) (fkind : TypeKind)
    (ftid : Nat) (fieldName : String) (acc : CompAcc) (an : AnonTypes) :
    Except Fault CompAcc × AnonTypes :=
  if isStruct then
    match requiredPadding acc.offset (memberOffset / 8) rawAlign packed with
    | .error e => (.error e, an)
    | .ok padding =>
      let acc :=
        if padding ≠ 0 then
          { acc with
            agg := acc.agg ++ ["    pub __pad_" ++ toString acc.offset ++
              ": [u8; " ++ toString padding ++ "],"],
            impl := acc.impl ++ ["            __pad_" ++ toString acc.offset ++
              ": [u8::default(); " ++ toString padding ++ "]"] }
        else acc
      let arrBig := match fkind with | .array _ cap => decide (cap > 32) | _ => false
      let isPtr := match fkind with | .ptr _ => true | _ => false
      let acc := { acc with
        genImplDefault := acc.genImplDefault || arrBig ||
          (isPtr || isUnsafeBitPattern btf ftid) }
      compositeStepRest btf fuel isStruct memberOffset ftid fieldName acc an
  else
    compositeStepRest btf fuel isStruct memberOffset ftid fieldName acc an

/-- The field-name computation of one `visit_composite` member
iteration: a named member's name escaped against reserved keywords, an
unnamed member (an anonymous unnamed union) named like its own type. -/
def fieldNameOf (an : AnonTypes) (m : Member) (ftid : Nat) (fnode : BtfNode) :
    String × AnonTypes :=
  match m.name with
  | some n => (escapeReservedKeyword n, an)
  | none => typeNameOrAnon an ftid fnode.name

/-- One full `visit_composite` iteration for a normal member: unwrap the
member's type, resolve it, collect the next structured dependent,
compute the field name (escaped, or the anonymous name of the field's
own type), then the struct-only block and the default/declaration tail. -/
def compositeStep (btf : Btf) (fuel : Nat) (isStruct packed : Bool)
    (m : Member) (memberOffset : Nat) (acc : CompAcc) (an : AnonTypes) :
    Except Fault CompAcc × AnonTypes :=
  match btf.lookup m.ty with
  | none => (.error (.abort "type lookup failed"), an)
  | some rawNode =>
    let ftid := skipModsAndTypedefs btf (btf.types.length + 1) m.ty
    match btf.lookup ftid with
    | none => (.error (.abort "type lookup failed"), an)
    | some fnode =>
      match nextType btf fuel ftid with
      | .error e => (.error e, an)
      | .ok dep =>
        let acc := { acc with deps := acc.deps ++ dep.toList }
        let p := fieldNameOf an m ftid fnode
        compositeStepStruct btf fuel isStruct packed memberOffset
          rawNode.align fnode.kind ftid p.1 acc p.2

/-- The member loop of `visit_composite`: bitfield members are skipped
entirely (absorbed into padding). -/
def compositeLoop (btf : Btf) (fuel : Nat) (isStruct packed : Bool) :
    List Member → CompAcc → AnonTypes → Except Fault CompAcc × AnonTypes
  | [], acc, an => (.ok acc, an)
  | m :: rest, acc, an =>
    match m.attr with
    | .bitField _ _ => compositeLoop btf fuel isStruct packed rest acc an
    | .normal memberOffset =>
      match compositeStep btf fuel isStruct packed m memberOffset acc an with
      | (.error e, an) => (.error e, an)
      | (.ok acc', an) => compositeLoop btf fuel isStruct packed rest acc' an

/-- Trailing padding of `visit_composite` (structs only): pad from the
accumulated offset up to the declared total size. -/
def compositeTrailing (c : Composite) (packed : Bool) (acc : CompAcc) :
    Except Fault CompAcc :=
  if c.isStruct then
    match requiredPadding acc.offset c.size c.align packed with
    | .error e => .error e
    | .ok padding =>
      if padding ≠ 0 then
        .ok { acc with
          agg := acc.agg ++ ["    pub __pad_" ++ toString acc.offset ++
            ": [u8; " ++ toString padding ++ "],"],
          impl := acc.impl ++ ["            __pad_" ++ toString acc.offset ++
            ": [u8::default(); " ++ toString padding ++ "]"] }
      else .ok acc
  else .ok acc

/-- Concatenate emitted lines, terminating each with a newline. -/
def joinLinesNl : List String → String
  | [] => ""
  | l :: rest => l ++ "\n" ++ joinLinesNl rest

/-- Concatenate default-impl lines, terminating each with `",\n"`. -/
def joinLinesComma : List String → String
  | [] => ""
  | l :: rest => l ++ ",\n" ++ joinLinesComma rest

/-- The derive/repr/header/fields block of an emitted composite. -/
def compositeHeader (isStruct packed gen : Bool) (name : String)
    (aggLines : List String) : String :=
  (if !gen && isStruct then "#[derive(Debug, Default, Copy, Clone)]\n"
   else if isStruct then "#[derive(Debug, Copy, Clone)]\n"
   else "#[derive(Copy, Clone)]\n") ++
  "#[repr(C" ++ (if packed then ", packed" else "") ++ ")]\n" ++
  "pub " ++ (if isStruct then "struct" else "union") ++ " " ++ name ++
  " \x7b\n" ++ joinLinesNl aggLines ++ "\x7d\n"

/-- The explicit `Default` impl emitted when one cannot be derived. -/
def implDefaultBlock (name : String) (implLines : List String) : String :=
  "impl Default for " ++ name ++ " \x7b\n" ++
  "    fn default() -> Self \x7b\n" ++
  "        " ++ name ++ " \x7b\n" ++
  joinLinesComma implLines ++
  "        \x7d\n" ++ "    \x7d\n" ++ "\x7d\n"

/-- The opaque `Debug` impl emitted for every union. -/
def unionDebugBlock (name : String) : String :=
  "impl std::fmt::Debug for " ++ name ++ " \x7b\n" ++
  "    fn fmt(&self, f: &mut std::fmt::Formatter<\x27_>) -> std::fmt::Result \x7b\n" ++
  "        write!(f, \"(???)\")\n" ++
  "    \x7d\n" ++ "\x7d\n"

/-- The `Default` impl emitted for a union, built from the first
collected default-impl line (an out-of-bounds abort when there is none). -/
def unionDefaultBlock (name : String) (firstImpl : String) : String :=
  "impl Default for " ++ name ++ " \x7b\n" ++
  "    fn default() -> Self \x7b\n" ++
  "        " ++ name ++ " \x7b\n" ++
  firstImpl ++ ",\n" ++
  "        \x7d\n" ++ "    \x7d\n" ++ "\x7d\n"

/-- `DefinitionVisitor::visit_composite`: skip if visited, compute
packedness, run the member loop and trailing padding, then emit the
aggregate block followed by an explicit `Default` impl when forced, or
(for unions) the opaque `Debug` impl and the first-member `Default`
impl. -/
def visitComposite (btf : Btf) (fuel : Nat) (c : Composite) (st : Session)
    (defn : String) : Except Fault (List Nat × String) × Session :=
  if st.visited.contains c.tid then (.ok ([], defn), st)
  else
    let st := st.insertId c.tid
    match isStructPacked btf c with
    | .error e => (.error e, st)
    | .ok packed =>
      match compositeLoop btf fuel c.isStruct packed c.members
          ⟨0, [], [], false, []⟩ st.anon with
      | (.error e, an) => (.error e, { st with anon := an })
      | (.ok acc, an) =>
        let st := { st with anon := an }
        match compositeTrailing c packed acc with
        | .error e => (.error e, st)
        | .ok acc =>
          let p := typeNameOrAnon st.anon c.tid c.cname
          let st := { st with anon := p.2 }
          let text := compositeHeader c.isStruct packed acc.genImplDefault
            p.1 acc.agg
          if acc.genImplDefault then
            (.ok (acc.deps, defn ++ text ++ implDefaultBlock p.1 acc.impl), st)
          else if !c.isStruct then
            match acc.impl with
            | [] =>
              (.error (.abort "index out of bounds: the len is 0 but the index is 0"),
               st)
            | e0 :: _ =>
              (.ok (acc.deps,
                defn ++ text ++ unionDebugBlock p.1 ++ unionDefaultBlock p.1 e0),
               st)
          else
            (.ok (acc.deps, defn ++ text), st)

/-- The dispatch of `visit_type_hierarchy` over one popped node: struct
and union nodes go to `visit_composite`, 32-bit enum nodes to
`visit_enum`, datasec nodes to `visit_datasec`; every other kind —
including `Enum64` — hits the catch-all and fails. -/
def dispatchNode (btf : Btf) (fuel : Nat) (i : Nat) (node : BtfNode)
    (st : Session) (defn : String) :
    Except Fault (List Nat × String) × Session :=
  match node.kind with
  | .structK sz ms =>
    visitComposite btf fuel ⟨i, node.name, true, sz, ms, node.align⟩ st defn
  | .unionK sz ms =>
    visitComposite btf fuel ⟨i, node.name, false, sz, ms, node.align⟩ st defn
  | .enumK sz vs =>
    match visitEnum ⟨i, node.name, sz, vs⟩ st defn with
    | (.ok defn', st') => (.ok ([], defn'), st')
    | (.error e, st') => (.error e, st')
  | .dataSec sz vars =>
    visitDatasec btf fuel ⟨i, node.name, sz, vars⟩ st defn
  | k => (.error (.error ("encountered unsupported type: " ++ kindName k)), st)

/-- `visit_type_hierarchy` (visit.rs): FIFO worklist, popping the front
and appending newly discovered dependents at the back (breadth-first).
Fuelled; the fuel only bounds the number of loop iterations. -/
def visitTypeHierarchy (btf : Btf) : Nat → List Nat → Session → String →
    Except Fault String × Session
  | _, [], st, defn => (.ok defn, st)
  | 0, _ :: _, st, _ => (.error (.error "fuel exhausted"), st)
  | fuel + 1, i :: rest, st, defn =>
    match btf.lookup i with
    | none => (.error (.abort "type lookup failed"), st)
    | some node =>
      match dispatchNode btf fuel i node st defn with
      | (.ok (deps, defn'), st') =>
        visitTypeHierarchy btf fuel (rest ++ deps) st' defn'
      | (.error e, st') => (.error e, st')

/-- The `is_terminal` root filter of `GenBtf::type_definition`: every
kind except Struct, Union, Enum, Enum64 and DataSec. -/
def isTerminal : TypeKind → Bool
  | .structK _ _ => false
  | .unionK _ _ => false
  | .enumK _ _ => false
  | .enum64 _ _ => false
  | .dataSec _ _ => false
  | _ => true

/-- `GenBtf::type_definition`: reject terminal roots, then drive the
hierarchy walk from the root with a fresh output string; the visited set
and the anonymous-name registry live in the caller-scoped session and
are returned even on failure. -/
def typeDefinition (btf : Btf) (fuel : Nat) (i : Nat) (st : Session) :
    Except Fault String × Session :=
  match btf.lookup i with
  | none => (.error (.abort "type lookup failed"), st)
  | some node =>
    if isTerminal node.kind then
      (.error (.error "Tried to print type definition for terminal type"), st)
    else
      visitTypeHierarchy btf fuel [i] st ""

/-! ## Specification-side definitions

These follow the wording of the specification (not the code) and are
used to state refinement-style claim theorems against the embedded
source functions above. -/

/-- Rounding `n` up to a multiple of `a`, as `required_padding` words it
("rounding currentOffset up to that alignment"). -/
def alignUpSpec (n a : Nat) : Nat :=
  (n + a - 1) / a * a

/-- The spec's per-member misalignment test: a normal member whose bit
offset is not a multiple of its own type's alignment in bits. -/
def memberMisaligned (btf : Btf) (m : Member) : Bool :=
  match btf.lookup m.ty, m.attr with
  | some n, .normal off =>
    match n.align with
    | some a => decide (off % (a * 8) ≠ 0)
    | none => false
  | _, _ => false

/-- The spec's rendering of one enumerator: name, literal discriminant. -/
def enumLineSpec (v : EnumValue) : String :=
  "    " ++ v.name.getD "" ++ " = " ++ toString v.value ++ ",\n"

/-- All enumerator lines after the first. -/
def enumTailSpec : List EnumValue → String
  | [] => ""
  | v :: rest => enumLineSpec v ++ enumTailSpec rest

/-- The spec's enum body: one line per declared value, the first declared
enumerator marked as the default. -/
def enumBodySpec : List EnumValue → String
  | [] => ""
  | v :: rest => "    #[default]\n" ++ enumLineSpec v ++ enumTailSpec rest

/-! ## Claim C1 -/

/-- Claim C1.
For `requiredPadding(current, required, ty, packed)` with the adapter
reporting alignment `a` for `ty`: under the precondition
`current ≤ required` the alignment used is 1 when packed and otherwise
the natural alignment capped at 4 bytes, and the result is
`required - current` when rounding `current` up to that alignment does
not land on `required`, else 0; with `current > required` the call fails
with the layout-inconsistency error. -/
theorem requiredPadding_spec (current required a : Nat) (packed : Bool) :
    (current ≤ required →
      requiredPadding current required (some a) packed =
        .ok (if alignUpSpec current (if packed then 1 else min a 4) = required
             then 0 else required - current)) ∧
    (required < current →
      requiredPadding current required (some a) packed =
        .error (.error ("current offset (" ++ toString current ++
          ") ahead of required offset (" ++ toString required ++ ")"))) := by
  constructor
  · intro h
    unfold requiredPadding
    rw [if_pos h]
    cases packed with
    | true =>
      simp only [if_true, alignUpSpec]
      split <;> simp_all
    | false =>
      have hcap : (if a > 4 then 4 else a) = min a 4 := by
        split <;> omega
      simp only [Bool.false_eq_true, if_false, hcap, alignUpSpec]
      split <;> simp_all
  · intro h
    unfold requiredPadding
    rw [if_neg (by omega)]

/-- Witness for C1: both branches exercised at concrete inputs. -/
theorem requiredPadding_spec_witness :
    requiredPadding 1 6 (some 4) false = .ok 5 ∧
    requiredPadding 9 2 (some 4) false =
      .error (.error "current offset (9) ahead of required offset (2)") := by
  constructor
  · have h := (requiredPadding_spec 1 6 4 false).1 (by decide)
    exact h.trans rfl
  · have h := (requiredPadding_spec 9 2 4 false).2 (by decide)
    exact h.trans rfl

/-! ## Claim C2 -/

theorem packedLoop_spec (btf : Btf) (ms : List Member)
    (h : ∀ m ∈ ms, ∃ n a, btf.lookup m.ty = some n ∧ n.align = some a) :
    packedLoop btf ms = .ok (ms.any (memberMisaligned btf)) := by
  induction ms with
  | nil => simp [packedLoop]
  | cons m rest ih =>
    obtain ⟨n, a, hn, ha⟩ := h m (List.mem_cons_self _ _)
    have ih' := ih (fun m' hm' => h m' (List.mem_cons_of_mem _ hm'))
    cases hattr : m.attr with
    | normal off =>
      by_cases hoff : off % (a * 8) ≠ 0
      · simp [packedLoop, hn, ha, hattr, hoff, memberMisaligned]
      · simp [packedLoop, hn, ha, hattr, hoff, memberMisaligned, ih']
    | bitField o b =>
      simp [packedLoop, hn, ha, hattr, memberMisaligned, ih']

/-- Claim C2.
`isStructPacked` reports `false` for every union; for a struct whose
alignment query yields `A` and whose members' alignment queries all
succeed, it reports `true` iff the total size is not a multiple of `A`
or some normal (non-bitfield) member's bit offset is not a multiple of
that member's own alignment in bits. -/
theorem isStructPacked_spec (btf : Btf) (c : Composite) (A : Nat) :
    (c.isStruct = false → isStructPacked btf c = .ok false) ∧
    (c.isStruct = true → c.align = some A →
      (∀ m ∈ c.members, ∃ n a, btf.lookup m.ty = some n ∧ n.align = some a) →
      isStructPacked btf c =
        .ok (decide (c.size % A ≠ 0) || c.members.any (memberMisaligned btf))) := by
  constructor
  · intro h
    simp [isStructPacked, h]
  · intro h hA hm
    by_cases hsz : c.size % A ≠ 0
    · simp [isStructPacked, h, hA, hsz]
    · simp [isStructPacked, h, hA, hsz, packedLoop_spec btf c.members hm]

/-- Witness for C2: a union, a packed struct (misaligned size), and an
unpacked struct, all concrete. -/
theorem isStructPacked_spec_witness :
    isStructPacked ⟨[⟨some "int", .int 32 .noneE, some 4⟩], 8⟩
      ⟨2, some "u", false, 6, [⟨some "x", 0, .normal 0⟩], some 4⟩ = .ok false ∧
    isStructPacked ⟨[⟨some "int", .int 32 .noneE, some 4⟩], 8⟩
      ⟨2, some "s", true, 6, [⟨some "x", 0, .normal 0⟩], some 4⟩ = .ok true ∧
    isStructPacked ⟨[⟨some "int", .int 32 .noneE, some 4⟩], 8⟩
      ⟨2, some "t", true, 8, [⟨some "x", 0, .normal 0⟩], some 4⟩ = .ok false := by
  refine ⟨?_, ?_, ?_⟩
  · exact (isStructPacked_spec _ _ 4).1 rfl
  · have h := (isStructPacked_spec ⟨[⟨some "int", .int 32 .noneE, some 4⟩], 8⟩
      ⟨2, some "s", true, 6, [⟨some "x", 0, .normal 0⟩], some 4⟩ 4).2 rfl rfl
      (by intro m hm; simp at hm; subst hm; exact ⟨_, 4, rfl, rfl⟩)
    exact h.trans rfl
  · have h := (isStructPacked_spec ⟨[⟨some "int", .int 32 .noneE, some 4⟩], 8⟩
      ⟨2, some "t", true, 8, [⟨some "x", 0, .normal 0⟩], some 4⟩ 4).2 rfl rfl
      (by intro m hm; simp at hm; subst hm; exact ⟨_, 4, rfl, rfl⟩)
    exact h.trans rfl

/-! ## Claim C7 -/

@[simp]
theorem insertId_anon (st : Session) (t : Nat) : (st.insertId t).anon = st.anon := rfl

@[simp]
theorem insertId_visited (st : Session) (t : Nat) :
    (st.insertId t).visited = st.visited ++ [t] := rfl

@[simp]
theorem insertId_emitted (st : Session) (t : Nat) :
    (st.insertId t).emitted = st.emitted ++ [t] := rfl

theorem enumSigned_spec (vs : List EnumValue) :
    enumSigned vs = if vs.any (fun v => decide (v.value < 0)) then "i" else "u" := by
  induction vs with
  | nil => simp [enumSigned]
  | cons v rest ih =>
    by_cases hv : v.value < 0
    · simp [enumSigned, hv]
    · simp [enumSigned, hv, ih]

theorem enumLines_tail (vs : List EnumValue) (i : Nat)
    (h : ∀ v ∈ vs, v.name.isSome) :
    enumLines vs (i + 1) = .ok (enumTailSpec vs) := by
  induction vs generalizing i with
  | nil => simp [enumLines, enumTailSpec]
  | cons v rest ih =>
    obtain ⟨n, hn⟩ := Option.isSome_iff_exists.mp (h v (List.mem_cons_self _ _))
    have ih' := ih (i + 1) (fun v' hv' => h v' (List.mem_cons_of_mem _ hv'))
    simp [enumLines, hn, ih', enumTailSpec, enumLineSpec]

theorem enumLines_zero (vs : List EnumValue)
    (h : ∀ v ∈ vs, v.name.isSome) :
    enumLines vs 0 = .ok (enumBodySpec vs) := by
  cases vs with
  | nil => simp [enumLines, enumBodySpec]
  | cons v rest =>
    obtain ⟨n, hn⟩ := Option.isSome_iff_exists.mp (h v (List.mem_cons_self _ _))
    have ht := enumLines_tail rest 0 (fun v' hv' => h v' (List.mem_cons_of_mem _ hv'))
    simp [enumLines, hn, ht, enumBodySpec, enumLineSpec, ← String.append_assoc]

/-- Claim C7.
An emitted enum is represented unsigned unless some enumerator value is
negative; the representation width is 8 times the declared byte size for
the supported sizes 1/2/4/8/16 and any other declared size fails; one
named enumerator line with its literal discriminant is emitted per
declared value, and the first declared enumerator carries the default
marker (see `enumBodySpec`). -/
theorem visitEnum_spec (e : EnumView) (st : Session) (defn : String)
    (hfresh : st.visited.contains e.tid = false)
    (hnames : ∀ v ∈ e.values, v.name.isSome) :
    (∀ s ∈ [1, 2, 4, 8, 16], widthStr s = some (toString (8 * s))) ∧
    (∀ w, widthStr e.size = some w →
      visitEnum e st defn =
        (.ok (defn ++ "#[derive(Debug, Copy, Clone, Default, PartialEq, Eq)]\n" ++
          "#[repr(" ++
          (if e.values.any (fun v => decide (v.value < 0)) then "i" else "u") ++
          w ++ ")]\n" ++
          "pub enum " ++ (typeNameOrAnon st.anon e.tid e.ename).1 ++ " \x7b\n" ++
          enumBodySpec e.values ++ "\x7d\n"),
         { st.insertId e.tid with
           anon := (typeNameOrAnon st.anon e.tid e.ename).2 })) ∧
    (widthStr e.size = none →
      visitEnum e st defn =
        (.error (.error ("Invalid enum size: " ++ toString e.size)),
         st.insertId e.tid)) := by
  refine ⟨by decide, ?_, ?_⟩
  · intro w hw
    simp only [visitEnum, hfresh, Bool.false_eq_true, if_false, hw,
      enumSigned_spec, enumLines_zero e.values hnames, insertId_anon]
  · intro hw
    simp only [visitEnum, hfresh, Bool.false_eq_true, if_false, hw]

/-- A fresh session: empty registry, empty visited set. -/
def session0 : Session := ⟨⟨[]⟩, [], []⟩

/-- Witness for C7: a concrete enum with a negative enumerator is emitted
signed, its first enumerator carrying the default marker. -/
theorem visitEnum_spec_witness :
    visitEnum ⟨1, some "E", 4, [⟨some "A", 0⟩, ⟨some "B", -1⟩]⟩ session0 "" =
      (.ok ("#[derive(Debug, Copy, Clone, Default, PartialEq, Eq)]\n" ++
        "#[repr(i32)]\npub enum E \x7b\n    #[default]\n    A = 0,\n    B = -1,\n\x7d\n"),
       ⟨⟨[]⟩, [1], [1]⟩) := by
  have h := (visitEnum_spec ⟨1, some "E", 4, [⟨some "A", 0⟩, ⟨some "B", -1⟩]⟩
    session0 "" rfl (by decide)).2.1 "32" (by rfl)
  exact h.trans rfl

/-! ## Claim C8 -/

/-- Claim C8 counterexample: emitting a concrete enum node that declares
zero enumerators succeeds (returns emitted text), contradicting the
claimed fatal `EmptyEnum` input error — no such check exists in
`visit_enum`. -/
theorem visitEnum_empty_concrete :
    visitEnum ⟨1, some "E", 4, []⟩ session0 "" =
      (.ok ("#[derive(Debug, Copy, Clone, Default, PartialEq, Eq)]\n" ++
        "#[repr(u32)]\npub enum E \x7b\n\x7d\n"),
       ⟨⟨[]⟩, [1], [1]⟩) := rfl

/-- Claim C8 (amended).
Emitting an enum node that declares zero enumerators does not fail:
whenever the declared size is supported and the node is unvisited, the
visitor succeeds and emits an enum block with no enumerator lines
(unsigned representation, since no enumerator value is negative). -/
theorem visitEnum_empty (tid : Nat) (nm : Option String) (sz : Nat) (w : String)
    (st : Session) (defn : String)
    (hfresh : st.visited.contains tid = false)
    (hw : widthStr sz = some w) :
    visitEnum ⟨tid, nm, sz, []⟩ st defn =
      (.ok (defn ++ "#[derive(Debug, Copy, Clone, Default, PartialEq, Eq)]\n" ++
        "#[repr(" ++ "u" ++ w ++ ")]\n" ++
        "pub enum " ++ (typeNameOrAnon st.anon tid nm).1 ++ " \x7b\n" ++ "\x7d\n"),
       { st.insertId tid with anon := (typeNameOrAnon st.anon tid nm).2 }) := by
  simp only [visitEnum, hfresh, Bool.false_eq_true, if_false, hw, enumSigned,
    enumLines, insertId_anon, String.append_empty, ← String.append_assoc]

/-- Witness for C8 (amended): a second concrete empty enum, anonymous this
time, exercising the theorem's hypotheses. -/
theorem visitEnum_empty_witness :
    visitEnum ⟨3, none, 2, []⟩ session0 "x" =
      (.ok ("x" ++ "#[derive(Debug, Copy, Clone, Default, PartialEq, Eq)]\n" ++
        "#[repr(" ++ "u" ++ "16" ++ ")]\n" ++
        "pub enum " ++ "__anon_1" ++ " \x7b\n" ++ "\x7d\n"),
       ⟨⟨[(3, 1)]⟩, [3], [3]⟩) := by
  have h := visitEnum_empty 3 none 2 "16" session0 "x" rfl rfl
  exact h.trans rfl

/-! ## Claim C9 -/

/-- Graph with a boolean-encoded integer of 16 bits (host bool is 8). -/
def boolWidthBtf : Btf :=
  ⟨[⟨none, .void, none⟩, ⟨some "b16", .int 16 .boolE, some 2⟩], 8⟩

/-- Graph with a datasec whose (global) variable node has no name. -/
def namelessVarBtf : Btf :=
  ⟨[⟨none, .void, none⟩,
    ⟨some "int", .int 32 .noneE, some 4⟩,
    ⟨none, .var 1 .globalL, some 4⟩,
    ⟨some ".data", .dataSec 4 [⟨2, 0, 4⟩], none⟩], 8⟩

/-- Graph with a union that has no normal members (its only member is a
bitfield, which the member loop skips). -/
def emptyUnionBtf : Btf :=
  ⟨[⟨none, .void, none⟩,
    ⟨some "int", .int 32 .noneE, some 4⟩,
    ⟨some "u", .unionK 4 [⟨some "x", 1, .bitField 0 3⟩], some 4⟩], 8⟩

/-- Claim C9 counterexample: an enumerator without a name makes
`visit_enum` abort (the `Option::unwrap` panic), not return a
descriptive failure — refuting the claim that this input yields a
returned error. -/
theorem visitEnum_namelessValue_aborts :
    visitEnum ⟨1, some "E", 4, [⟨none, 0⟩]⟩ session0 "" =
      (.error (.abort "called Option::unwrap on a None value"),
       ⟨⟨[]⟩, [1], [1]⟩) := rfl

/-- Claim C9 (amended).
The generator is not total on malformed input: a boolean-encoded integer
whose bit width differs from the host boolean's 8 bits fails the
`assert!` in `type_declaration`; a section variable without a name and a
union with no normal members abort in `visit_datasec` and
`visit_composite` (an `unwrap` panic and an out-of-bounds index); each
is a process abort, not a returned error. -/
theorem generator_aborts_on_malformed_input :
    typeDeclaration boolWidthBtf 10 1 ⟨[]⟩ =
      (.error (.abort "assertion failed: t.bits as usize == (size_of::<bool>() * 8)"),
       ⟨[]⟩) ∧
    visitDatasec namelessVarBtf 10 ⟨3, some ".data", 4, [⟨2, 0, 4⟩]⟩ session0 "" =
      (.error (.abort "called Option::unwrap on a None value"),
       ⟨⟨[]⟩, [3], [3]⟩) ∧
    visitComposite emptyUnionBtf 10
        ⟨2, some "u", false, 4, [⟨some "x", 1, .bitField 0 3⟩], some 4⟩
        session0 "" =
      (.error (.abort "index out of bounds: the len is 0 but the index is 0"),
       ⟨⟨[]⟩, [2], [2]⟩) := by
  refine ⟨?_, ?_, ?_⟩ <;> rfl

/-! ## Claim C4 -/

/-- Graph whose only interesting node is a 64-bit enum. -/
def enum64Btf : Btf :=
  ⟨[⟨none, .void, none⟩, ⟨some "e64", .enum64 8 [⟨some "A", 0⟩], some 8⟩], 8⟩

/-- Claim C4 counterexample: a root that resolves to `Enum64` passes the
terminal-root check but then fails inside the hierarchy walk with the
unsupported-kind error, instead of being accepted and emitted as the
claim states. -/
theorem typeDefinition_enum64_root_fails :
    typeDefinition enum64Btf 10 1 session0 =
      (.error (.error "encountered unsupported type: Enum64"), session0) := rfl

/-- Claim C4 (amended).
A root of immediate kind Struct, Union, Enum or DataSec passes the
terminal-root check and enters the hierarchy walk; a root of any of the
fifteen terminal kinds fails immediately; an Enum64 root passes the root
check but the walk rejects it with the unsupported-kind error; and a
popped node of one of the four supported kinds is always dispatched to
its emitter, never to the unsupported-kind catch-all. -/
theorem typeDefinition_rootKinds (btf : Btf) (fuel i : Nat) (node : BtfNode)
    (st : Session) (h : btf.lookup i = some node) :
    (isTerminal node.kind = false →
      typeDefinition btf fuel i st = visitTypeHierarchy btf fuel [i] st "") ∧
    (isTerminal node.kind = true →
      typeDefinition btf fuel i st =
        (.error (.error "Tried to print type definition for terminal type"), st)) ∧
    (∀ sz vs f, node.kind = .enum64 sz vs → fuel = f + 1 →
      typeDefinition btf fuel i st =
        (.error (.error "encountered unsupported type: Enum64"), st)) ∧
    (∀ defn,
      (∀ sz ms, node.kind = .structK sz ms →
        dispatchNode btf fuel i node st defn =
          visitComposite btf fuel ⟨i, node.name, true, sz, ms, node.align⟩ st defn) ∧
      (∀ sz ms, node.kind = .unionK sz ms →
        dispatchNode btf fuel i node st defn =
          visitComposite btf fuel ⟨i, node.name, false, sz, ms, node.align⟩ st defn) ∧
      (∀ sz vs defn' st', node.kind = .enumK sz vs →
        visitEnum ⟨i, node.name, sz, vs⟩ st defn = (.ok defn', st') →
        dispatchNode btf fuel i node st defn = (.ok ([], defn'), st')) ∧
      (∀ sz vars, node.kind = .dataSec sz vars →
        dispatchNode btf fuel i node st defn =
          visitDatasec btf fuel ⟨i, node.name, sz, vars⟩ st defn)) := by
  refine ⟨?_, ?_, ?_, ?_⟩
  · intro hterm
    simp [typeDefinition, h, hterm]
  · intro hterm
    simp [typeDefinition, h, hterm]
  · intro sz vs f hk hf
    subst hf
    have hterm : isTerminal node.kind = false := by rw [hk]; rfl
    simp only [typeDefinition, h, hterm, Bool.false_eq_true, if_false,
      visitTypeHierarchy, dispatchNode, hk]
    rfl
  · intro defn
    refine ⟨?_, ?_, ?_, ?_⟩
    · intro sz ms hk
      simp [dispatchNode, hk]
    · intro sz ms hk
      simp [dispatchNode, hk]
    · intro sz vs defn' st' hk he
      simp [dispatchNode, hk, he]
    · intro sz vars hk
      simp [dispatchNode, hk]

/-- Witness for C4 (amended): all four conjuncts exercised at concrete
inputs over the `exampleBtf` graphs defined above. -/
theorem typeDefinition_rootKinds_witness :
    typeDefinition namelessVarBtf 10 3 session0 =
      visitTypeHierarchy namelessVarBtf 10 [3] session0 "" ∧
    typeDefinition namelessVarBtf 10 1 session0 =
      (.error (.error "Tried to print type definition for terminal type"),
       session0) ∧
    typeDefinition enum64Btf 7 1 session0 =
      (.error (.error "encountered unsupported type: Enum64"), session0) ∧
    dispatchNode emptyUnionBtf 10 2
        ⟨some "u", .unionK 4 [⟨some "x", 1, .bitField 0 3⟩], some 4⟩
        session0 "" =
      visitComposite emptyUnionBtf 10
        ⟨2, some "u", false, 4, [⟨some "x", 1, .bitField 0 3⟩], some 4⟩
        session0 "" := by
  refine ⟨?_, ?_, ?_, ?_⟩
  · exact (typeDefinition_rootKinds namelessVarBtf 10 3
      ⟨some ".data", .dataSec 4 [⟨2, 0, 4⟩], none⟩ session0 rfl).1 rfl
  · exact (typeDefinition_rootKinds namelessVarBtf 10 1
      ⟨some "int", .int 32 .noneE, some 4⟩ session0 rfl).2.1 rfl
  · exact (typeDefinition_rootKinds enum64Btf 7 1
      ⟨some "e64", .enum64 8 [⟨some "A", 0⟩], some 8⟩ session0 rfl).2.2.1
      8 [⟨some "A", 0⟩] 6 rfl rfl
  · exact ((typeDefinition_rootKinds emptyUnionBtf 10 2
      ⟨some "u", .unionK 4 [⟨some "x", 1, .bitField 0 3⟩], some 4⟩ session0
      rfl).2.2.2 "").2.1 4 [⟨some "x", 1, .bitField 0 3⟩] rfl

/-! ## Claim C5 -/

/-- One naming request: the node's type id and its declared name, if any. -/
structure NameReq where
  tid : Nat
  rname : Option String
  deriving Repr, DecidableEq

/-- Run a sequence of `type_name_or_anon` requests against a registry,
collecting the returned names. -/
def runNames (an : AnonTypes) : List NameReq → List String × AnonTypes
  | [] => ([], an)
  | r :: rest =>
    let p := typeNameOrAnon an r.tid r.rname
    let q := runNames p.2 rest
    (p.1 :: q.1, q.2)

/-- Specification-side: the distinct ids of anonymous requests in
first-request order, given the ids already seen. -/
def anonIdsAux : List Nat → List NameReq → List Nat
  | _, [] => []
  | seen, r :: rest =>
    match r.rname with
    | some _ => anonIdsAux seen rest
    | none =>
      if seen.contains r.tid then anonIdsAux seen rest
      else r.tid :: anonIdsAux (seen ++ [r.tid]) rest

/-- Specification-side: 1-based position of the first occurrence. -/
def posOf (t : Nat) : List Nat → Option Nat
  | [] => none
  | i :: rest => if i = t then some 1 else (posOf t rest).map (· + 1)

/-- The registry contents corresponding to a first-seen id list: the j-th
id paired with counter value `n + j`. -/
def tablize : List Nat → Nat → List (Nat × Nat)
  | [], _ => []
  | i :: rest, n => (i, n) :: tablize rest (n + 1)

theorem tablize_length (ids : List Nat) : ∀ n, (tablize ids n).length = ids.length := by
  induction ids with
  | nil => intro n; rfl
  | cons i rest ih => intro n; simp [tablize, ih]

theorem tablize_append (ids : List Nat) (t : Nat) :
    ∀ n, tablize (ids ++ [t]) n = tablize ids n ++ [(t, n + ids.length)] := by
  induction ids with
  | nil => intro n; simp [tablize]
  | cons i rest ih =>
    intro n
    have hn : n + 1 + rest.length = n + (rest.length + 1) := by omega
    simp [tablize, ih (n + 1), hn]

theorem lookupAnon_tablize (ids : List Nat) (t : Nat) :
    ∀ n, lookupAnon (tablize ids n) t = (posOf t ids).map (fun k => n + k - 1) := by
  induction ids with
  | nil => intro n; rfl
  | cons i rest ih =>
    intro n
    by_cases hi : i = t
    · simp [tablize, lookupAnon, posOf, hi]
    · simp only [tablize, lookupAnon, posOf, hi, if_false, ih (n + 1),
        Option.map_map]
      cases posOf t rest with
      | none => rfl
      | some k =>
        show some (n + 1 + k - 1) = some (n + (k + 1) - 1)
        congr 1
        omega

theorem lookupAnon_tablize_one (ids : List Nat) (t : Nat) :
    lookupAnon (tablize ids 1) t = posOf t ids := by
  rw [lookupAnon_tablize ids t 1]
  cases h : posOf t ids with
  | none => rfl
  | some k => simp

theorem posOf_eq_none (t : Nat) (ids : List Nat) (h : t ∉ ids) :
    posOf t ids = none := by
  induction ids with
  | nil => rfl
  | cons i rest ih =>
    simp only [List.mem_cons, not_or] at h
    simp [posOf, Ne.symm h.1, ih h.2]

theorem posOf_append_left (t : Nat) (ids l : List Nat) (h : t ∈ ids) :
    posOf t (ids ++ l) = posOf t ids := by
  induction ids with
  | nil => simp at h
  | cons i rest ih =>
    by_cases hi : i = t
    · simp [posOf, hi]
    · have hrest : t ∈ rest := by
        rcases List.mem_cons.mp h with h1 | h2
        · exact absurd h1.symm hi
        · exact h2
      simp [posOf, hi, ih hrest]

theorem posOf_append_fresh (t : Nat) (ids l : List Nat) (h : t ∉ ids) :
    posOf t (ids ++ t :: l) = some (ids.length + 1) := by
  induction ids with
  | nil => simp [posOf]
  | cons i rest ih =>
    simp only [List.mem_cons, not_or] at h
    simp only [List.cons_append, posOf, Ne.symm h.1, if_false, List.append_eq]
    rw [ih h.2]
    rfl

theorem posOf_mem (t : Nat) (ids : List Nat) (h : t ∈ ids) :
    ∃ k, posOf t ids = some k := by
  induction ids with
  | nil => simp at h
  | cons i rest ih =>
    by_cases hi : i = t
    · exact ⟨1, by simp [posOf, hi]⟩
    · have hrest : t ∈ rest := by
        rcases List.mem_cons.mp h with h1 | h2
        · exact absurd h1.symm hi
        · exact h2
      obtain ⟨k, hk⟩ := ih hrest
      exact ⟨k + 1, by simp [posOf, hi, hk]⟩

theorem runNames_rank (reqs : List NameReq) :
    ∀ (ids : List Nat) (j : Nat) (r : NameReq),
      reqs[j]? = some r → r.rname = none →
      ∃ k, posOf r.tid (ids ++ anonIdsAux ids reqs) = some k ∧
        (runNames ⟨tablize ids 1⟩ reqs).1[j]? =
          some ("__anon_" ++ toString k) := by
  induction reqs with
  | nil =>
    intro ids j r hj hr
    simp at hj
  | cons r0 rest ih =>
    intro ids j r hj hr
    cases j with
    | zero =>
      simp only [List.getElem?_cons_zero, Option.some_inj] at hj
      subst hj
      by_cases hmem : r0.tid ∈ ids
      · obtain ⟨k, hk⟩ := posOf_mem r0.tid ids hmem
        refine ⟨k, ?_, ?_⟩
        · rw [anonIdsAux, hr, if_pos (List.elem_iff.mpr hmem),
            posOf_append_left r0.tid ids _ hmem]
          exact hk
        · simp only [runNames, typeNameOrAnon, hr, lookupAnon_tablize_one,
            hk, List.getElem?_cons_zero]
      · refine ⟨ids.length + 1, ?_, ?_⟩
        · rw [anonIdsAux, hr, if_neg (by rw [List.elem_iff]; exact hmem)]
          exact posOf_append_fresh r0.tid ids _ hmem
        · simp only [runNames, typeNameOrAnon, hr, lookupAnon_tablize_one,
            posOf_eq_none r0.tid ids hmem, List.getElem?_cons_zero,
            tablize_length]
    | succ j =>
      simp only [List.getElem?_cons_succ] at hj
      cases hname : r0.rname with
      | some n =>
        obtain ⟨k, hpos, hget⟩ := ih ids j r hj hr
        refine ⟨k, ?_, ?_⟩
        · rw [anonIdsAux, hname]
          exact hpos
        · simp only [runNames, typeNameOrAnon, hname,
            List.getElem?_cons_succ]
          exact hget
      | none =>
        by_cases hmem : r0.tid ∈ ids
        · obtain ⟨k, hpos, hget⟩ := ih ids j r hj hr
          refine ⟨k, ?_, ?_⟩
          · rw [anonIdsAux, hname, if_pos (List.elem_iff.mpr hmem)]
            exact hpos
          · obtain ⟨k0, hk0⟩ := posOf_mem r0.tid ids hmem
            simp only [runNames, typeNameOrAnon, hname, lookupAnon_tablize_one,
              hk0, List.getElem?_cons_succ]
            exact hget
        · obtain ⟨k, hpos, hget⟩ := ih (ids ++ [r0.tid]) j r hj hr
          refine ⟨k, ?_, ?_⟩
          · rw [anonIdsAux, hname, if_neg (by rw [List.elem_iff]; exact hmem)]
            have hsplit : ids ++ r0.tid :: anonIdsAux (ids ++ [r0.tid]) rest =
                (ids ++ [r0.tid]) ++ anonIdsAux (ids ++ [r0.tid]) rest := by
              simp
            rw [hsplit]
            exact hpos
          · have hone : 1 + ids.length = ids.length + 1 := by omega
            have hreg : (⟨tablize ids 1 ++ [(r0.tid, (tablize ids 1).length + 1)]⟩ :
                AnonTypes) = ⟨tablize (ids ++ [r0.tid]) 1⟩ := by
              rw [tablize_append ids r0.tid 1, hone, tablize_length]
            simp only [runNames, typeNameOrAnon, hname, lookupAnon_tablize_one,
              posOf_eq_none r0.tid ids hmem, List.getElem?_cons_succ]
            rw [hreg]
            exact hget

/-- Claim C5.
Running any sequence of naming requests from a fresh registry: an
anonymous request at position `j` receives exactly `"__anon_" ++ N`
where `N` is the 1-based rank of its type id among the distinct
anonymous ids in first-request order; consequently two anonymous
requests for the same id — first and repeated — receive the same name
(memoization). -/
theorem typeNameOrAnon_session_spec (reqs : List NameReq) (j j' : Nat)
    (r r' : NameReq) (hj : reqs[j]? = some r) (hr : r.rname = none)
    (hj' : reqs[j']? = some r') (hr' : r'.rname = none)
    (hsame : r.tid = r'.tid) :
    (∃ k, posOf r.tid (anonIdsAux [] reqs) = some k ∧
      (runNames ⟨[]⟩ reqs).1[j]? = some ("__anon_" ++ toString k)) ∧
    (runNames ⟨[]⟩ reqs).1[j]? = (runNames ⟨[]⟩ reqs).1[j']? := by
  have h0 := runNames_rank reqs [] j r hj hr
  have h0' := runNames_rank reqs [] j' r' hj' hr'
  simp only [List.nil_append, tablize] at h0 h0'
  obtain ⟨k, hpos, hget⟩ := h0
  obtain ⟨k', hpos', hget'⟩ := h0'
  refine ⟨⟨k, hpos, hget⟩, ?_⟩
  rw [hsame] at hpos
  rw [hpos'] at hpos
  have hk : k' = k := by
    injection hpos
  rw [hget, hget', hk]

/-- Witness for C5: four concrete requests; the repeated anonymous id 7
keeps its first name `__anon_1`, the second distinct anonymous id gets
`__anon_2`, the named request keeps its name. -/
theorem typeNameOrAnon_session_spec_witness :
    (∃ k, posOf 7 (anonIdsAux []
        [⟨7, none⟩, ⟨9, none⟩, ⟨7, none⟩, ⟨3, some "x"⟩]) = some k ∧
      (runNames ⟨[]⟩
        [⟨7, none⟩, ⟨9, none⟩, ⟨7, none⟩, ⟨3, some "x"⟩]).1[2]? =
          some ("__anon_" ++ toString k)) ∧
    (runNames ⟨[]⟩ [⟨7, none⟩, ⟨9, none⟩, ⟨7, none⟩, ⟨3, some "x"⟩]).1[2]? =
      (runNames ⟨[]⟩ [⟨7, none⟩, ⟨9, none⟩, ⟨7, none⟩, ⟨3, some "x"⟩]).1[0]? :=
  typeNameOrAnon_session_spec
    [⟨7, none⟩, ⟨9, none⟩, ⟨7, none⟩, ⟨3, some "x"⟩] 2 0 ⟨7, none⟩ ⟨7, none⟩
    rfl rfl rfl rfl rfl

/-! ## Claim C6 -/

/-- The per-session well-formedness tying the ghost emission trace to the
visited set: no id is emitted twice, and every emitted id is visited. -/
def SessionInv (st : Session) : Prop :=
  st.emitted.Nodup ∧ ∀ x ∈ st.emitted, x ∈ st.visited

theorem sessionInv_anon (st : Session) (a : AnonTypes) :
    SessionInv { st with anon := a } ↔ SessionInv st := Iff.rfl

theorem contains_false_iff (l : List Nat) (t : Nat) :
    l.contains t = false ↔ t ∉ l := by
  rw [← Bool.not_eq_true, not_iff_not]
  exact List.elem_iff

theorem sessionInv_insert (st : Session) (t : Nat)
    (hfresh : st.visited.contains t = false) (h : SessionInv st) :
    SessionInv (st.insertId t) := by
  obtain ⟨h1, h2⟩ := h
  have hnotv : t ∉ st.visited := (contains_false_iff _ _).mp hfresh
  constructor
  · rw [insertId_emitted, List.nodup_append]
    exact ⟨h1, List.nodup_singleton t, by
      intro x hx hx'
      simp only [List.mem_singleton] at hx'
      exact hnotv (hx' ▸ h2 x hx)⟩
  · intro x hx
    rw [insertId_emitted, List.mem_append] at hx
    rw [insertId_visited, List.mem_append]
    rcases hx with hx | hx
    · exact Or.inl (h2 x hx)
    · exact Or.inr hx

theorem visitEnum_inv (e : EnumView) (st : Session) (defn : String)
    (h : SessionInv st) : SessionInv (visitEnum e st defn).2 := by
  cases hc : st.visited.contains e.tid with
  | true =>
    simp only [visitEnum, hc]
    rw [if_pos trivial]
    exact h
  | false =>
    have hins := sessionInv_insert st e.tid hc h
    simp only [visitEnum, hc, Bool.false_eq_true, if_false]
    repeat' split
    all_goals exact hins

theorem visitDatasec_inv (btf : Btf) (fuel : Nat) (d : DataSecView)
    (st : Session) (defn : String) (h : SessionInv st) :
    SessionInv (visitDatasec btf fuel d st defn).2 := by
  cases hc : st.visited.contains d.tid with
  | true =>
    simp only [visitDatasec, hc]
    rw [if_pos trivial]
    exact h
  | false =>
    have hins := sessionInv_insert st d.tid hc h
    simp only [visitDatasec, hc, Bool.false_eq_true, if_false]
    repeat' split
    all_goals exact hins

theorem visitComposite_inv (btf : Btf) (fuel : Nat) (c : Composite)
    (st : Session) (defn : String) (h : SessionInv st) :
    SessionInv (visitComposite btf fuel c st defn).2 := by
  cases hc : st.visited.contains c.tid with
  | true =>
    simp only [visitComposite, hc]
    rw [if_pos trivial]
    exact h
  | false =>
    have hins := sessionInv_insert st c.tid hc h
    simp only [visitComposite, hc, Bool.false_eq_true, if_false]
    repeat' split
    all_goals exact hins

theorem dispatchNode_inv (btf : Btf) (fuel i : Nat) (node : BtfNode)
    (st : Session) (defn : String) (h : SessionInv st) :
    SessionInv (dispatchNode btf fuel i node st defn).2 := by
  unfold dispatchNode
  split
  · exact visitComposite_inv _ _ _ _ _ h
  · exact visitComposite_inv _ _ _ _ _ h
  · rename_i sz vs hkind
    split
    · rename_i defn' st' heq
      have hrun := visitEnum_inv ⟨i, node.name, sz, vs⟩ st defn h
      rw [heq] at hrun
      exact hrun
    · rename_i e st' heq
      have hrun := visitEnum_inv ⟨i, node.name, sz, vs⟩ st defn h
      rw [heq] at hrun
      exact hrun
  · exact visitDatasec_inv _ _ _ _ _ h
  · exact h

theorem visitTypeHierarchy_inv (btf : Btf) :
    ∀ (fuel : Nat) (ws : List Nat) (st : Session) (defn : String),
      SessionInv st → SessionInv (visitTypeHierarchy btf fuel ws st defn).2 := by
  intro fuel
  induction fuel with
  | zero =>
    intro ws st defn h
    cases ws with
    | nil => exact h
    | cons i rest => exact h
  | succ n ih =>
    intro ws st defn h
    cases ws with
    | nil => exact h
    | cons i rest =>
      simp only [visitTypeHierarchy]
      split
      · exact h
      · rename_i node hnode
        have hd := dispatchNode_inv btf n i node st defn h
        split
        · rename_i deps defn' st' heq
          rw [heq] at hd
          exact ih _ _ _ hd
        · rename_i e st' heq
          rw [heq] at hd
          exact hd

/-- Graph with a datasec (id 5) whose two global variables (ids 3, 4)
both reference the same struct (id 2). -/
def sharedStructBtf : Btf :=
  ⟨[⟨none, .void, none⟩,
    ⟨some "int", .int 32 .noneE, some 4⟩,
    ⟨some "foo", .structK 4 [⟨some "x", 1, .normal 0⟩], some 4⟩,
    ⟨some "a", .var 2 .globalL, some 4⟩,
    ⟨some "b", .var 2 .globalL, some 4⟩,
    ⟨some ".bss", .dataSec 8 [⟨3, 0, 4⟩, ⟨4, 4, 4⟩], none⟩], 8⟩

/-- Claim C6.
Within one session, each type id is emitted at most once: the ghost
emission trace (appended exactly when a visitor passes its
fresh-insertion guard, the same guard that gates dependent expansion)
never repeats an id; concretely, the section of `sharedStructBtf` that
references the same struct through two distinct variables emits the
struct exactly once. -/
theorem typeDefinition_dedup (btf : Btf) (fuel i : Nat) (st : Session)
    (h1 : st.emitted.Nodup) (h2 : ∀ x ∈ st.emitted, x ∈ st.visited) :
    (typeDefinition btf fuel i st).2.emitted.Nodup ∧
    (typeDefinition sharedStructBtf 10 5 session0).2.emitted = [5, 2] := by
  constructor
  · unfold typeDefinition
    split
    · exact h1
    · split
      · exact h1
      · exact (visitTypeHierarchy_inv btf fuel [i] st "" ⟨h1, h2⟩).1
  · rfl

/-- Witness for C6: the invariant instantiated on a fresh session over
the shared-struct graph. -/
theorem typeDefinition_dedup_witness :
    (typeDefinition sharedStructBtf 10 5 session0).2.emitted.Nodup ∧
    (typeDefinition sharedStructBtf 10 5 session0).2.emitted = [5, 2] :=
  typeDefinition_dedup sharedStructBtf 10 5 session0 List.nodup_nil
    (by intro x hx; cases hx)

/-! ## Claim C3 -/

/-- The default-impl line generated for a bit-pattern-unsafe field: its
default expression wrapped in the uninitialized representation. -/
def maybeUninitEntry (fn d : String) : String :=
  "            " ++ fn ++ ": " ++ ("std::mem::MaybeUninit::new(" ++ d ++ ")")

theorem compositeStepTail_ok {btf : Btf} {fuel memberOffset ftid : Nat}
    {fieldName : String} {acc acc' : CompAcc} {an an' : AnonTypes}
    (h : compositeStepTail btf fuel memberOffset ftid fieldName acc an =
      (.ok acc', an')) :
    acc'.genImplDefault = acc.genImplDefault ∧ acc'.impl = acc.impl := by
  unfold compositeStepTail at h
  split at h
  · simp at h
  · split at h
    · simp at h
    · simp only [Prod.mk.injEq, Except.ok.injEq] at h
      obtain ⟨h1, h2⟩ := h
      subst h1
      exact ⟨rfl, rfl⟩

theorem compositeStepRest_mono {btf : Btf} {fuel : Nat} {isStruct : Bool}
    {memberOffset ftid : Nat} {fieldName : String} {acc acc' : CompAcc}
    {an an' : AnonTypes}
    (h : compositeStepRest btf fuel isStruct memberOffset ftid fieldName acc an =
      (.ok acc', an')) :
    acc'.genImplDefault = acc.genImplDefault ∧
    ∃ t, acc'.impl = acc.impl ++ t := by
  unfold compositeStepRest at h
  split at h
  · rename_i d an2 heq
    obtain ⟨h1, h2⟩ := compositeStepTail_ok h
    refine ⟨h1, ?_⟩
    rw [h2]
    exact ⟨_, rfl⟩
  · simp at h
  · split at h
    · simp at h
    · obtain ⟨h1, h2⟩ := compositeStepTail_ok h
      exact ⟨h1, [], by rw [h2, List.append_nil]⟩

theorem compositeStepRest_unsafe {btf : Btf} {fuel : Nat}
    {memberOffset ftid : Nat} {fieldName : String} {acc acc' : CompAcc}
    {an an' : AnonTypes}
    (hunsf : isUnsafeBitPattern btf ftid = true)
    (hgid : acc.genImplDefault = true)
    (h : compositeStepRest btf fuel true memberOffset ftid fieldName acc an =
      (.ok acc', an')) :
    ∃ d, maybeUninitEntry fieldName d ∈ acc'.impl := by
  unfold compositeStepRest at h
  split at h
  · rename_i d an2 heq
    rw [hunsf] at h
    obtain ⟨h1, h2⟩ := compositeStepTail_ok h
    refine ⟨d, ?_⟩
    rw [h2]
    simp [maybeUninitEntry]
  · simp at h
  · rw [hgid] at h
    simp at h

theorem compositeStepStruct_mono {btf : Btf} {fuel : Nat}
    {isStruct packed : Bool} {memberOffset : Nat} {rawAlign : Option Nat}
    {fkind : TypeKind} {ftid : Nat} {fieldName : String} {acc acc' : CompAcc}
    {an an' : AnonTypes}
    (h : compositeStepStruct btf fuel isStruct packed memberOffset rawAlign
      fkind ftid fieldName acc an = (.ok acc', an')) :
    (acc.genImplDefault = true → acc'.genImplDefault = true) ∧
    ∃ t, acc'.impl = acc.impl ++ t := by
  unfold compositeStepStruct at h
  split at h
  · split at h
    · simp at h
    · rename_i padding heq
      obtain ⟨h1, t, h2⟩ := compositeStepRest_mono h
      by_cases hp : padding ≠ 0
      · rw [if_pos hp] at h1 h2
        constructor
        · intro hg
          rw [h1]
          simp [hg]
        · rw [h2]
          simp
      · rw [if_neg hp] at h1 h2
        constructor
        · intro hg
          rw [h1]
          simp [hg]
        · rw [h2]
          exact ⟨t, by simp⟩
  · obtain ⟨h1, t, h2⟩ := compositeStepRest_mono h
    exact ⟨fun hg => by rw [h1, hg], t, h2⟩

theorem compositeStepStruct_unsafe {btf : Btf} {fuel : Nat} {packed : Bool}
    {memberOffset : Nat} {rawAlign : Option Nat} {fkind : TypeKind}
    {ftid : Nat} {fieldName : String} {acc acc' : CompAcc} {an an' : AnonTypes}
    (hunsf : isUnsafeBitPattern btf ftid = true)
    (h : compositeStepStruct btf fuel true packed memberOffset rawAlign
      fkind ftid fieldName acc an = (.ok acc', an')) :
    acc'.genImplDefault = true ∧
    ∃ d, maybeUninitEntry fieldName d ∈ acc'.impl := by
  unfold compositeStepStruct at h
  rw [if_pos rfl] at h
  split at h
  · simp at h
  · rename_i padding heq
    rw [hunsf] at h
    constructor
    · obtain ⟨h1, _, _⟩ := compositeStepRest_mono h
      rw [h1]
      simp
    · refine compositeStepRest_unsafe hunsf ?_ h
      simp

theorem compositeStep_mono {btf : Btf} {fuel : Nat} {isStruct packed : Bool}
    {m : Member} {memberOffset : Nat} {acc acc' : CompAcc} {an an' : AnonTypes}
    (h : compositeStep btf fuel isStruct packed m memberOffset acc an =
      (.ok acc', an')) :
    (acc.genImplDefault = true → acc'.genImplDefault = true) ∧
    ∃ t, acc'.impl = acc.impl ++ t := by
  unfold compositeStep at h
  split at h
  · simp at h
  · dsimp only [] at h
    split at h
    · simp at h
    · split at h
      · simp at h
      · obtain ⟨h1, t, h2⟩ := compositeStepStruct_mono h
        exact ⟨fun hg => h1 hg, t, h2⟩

theorem compositeStep_unsafe {btf : Btf} {fuel : Nat} {packed : Bool}
    {m : Member} {memberOffset : Nat} {acc acc' : CompAcc} {an an' : AnonTypes}
    (hunsf : isUnsafeBitPattern btf
      (skipModsAndTypedefs btf (btf.types.length + 1) m.ty) = true)
    (h : compositeStep btf fuel true packed m memberOffset acc an =
      (.ok acc', an')) :
    acc'.genImplDefault = true ∧
    ∃ fn d, maybeUninitEntry fn d ∈ acc'.impl := by
  unfold compositeStep at h
  split at h
  · simp at h
  · dsimp only [] at h
    split at h
    · simp at h
    · split at h
      · simp at h
      · obtain ⟨h1, d, h2⟩ := compositeStepStruct_unsafe hunsf h
        exact ⟨h1, _, d, h2⟩

theorem compositeLoop_gid {btf : Btf} {fuel : Nat} {isStruct packed : Bool}
    (ms : List Member) :
    ∀ {acc acc' : CompAcc} {an an' : AnonTypes},
      compositeLoop btf fuel isStruct packed ms acc an = (.ok acc', an') →
      acc.genImplDefault = true → acc'.genImplDefault = true := by
  induction ms with
  | nil =>
    intro acc acc' an an' h hg
    simp only [compositeLoop, Prod.mk.injEq, Except.ok.injEq] at h
    rw [← h.1]
    exact hg
  | cons m rest ih =>
    intro acc acc' an an' h hg
    rw [compositeLoop] at h
    split at h
    · exact ih h hg
    · split at h
      · simp at h
      · rename_i acc1 an1 heq
        obtain ⟨h1, _⟩ := compositeStep_mono heq
        exact ih h (h1 hg)

theorem compositeLoop_impl_mem {btf : Btf} {fuel : Nat} {isStruct packed : Bool}
    (ms : List Member) :
    ∀ {acc acc' : CompAcc} {an an' : AnonTypes} {x : String},
      compositeLoop btf fuel isStruct packed ms acc an = (.ok acc', an') →
      x ∈ acc.impl → x ∈ acc'.impl := by
  induction ms with
  | nil =>
    intro acc acc' an an' x h hx
    simp only [compositeLoop, Prod.mk.injEq, Except.ok.injEq] at h
    rw [← h.1]
    exact hx
  | cons m rest ih =>
    intro acc acc' an an' x h hx
    rw [compositeLoop] at h
    split at h
    · exact ih h hx
    · split at h
      · simp at h
      · rename_i acc1 an1 heq
        obtain ⟨_, t, ht⟩ := compositeStep_mono heq
        refine ih h ?_
        rw [ht]
        exact List.mem_append_left t hx

theorem compositeLoop_unsafe {btf : Btf} {fuel : Nat} {packed : Bool}
    (ms : List Member) :
    ∀ {acc acc' : CompAcc} {an an' : AnonTypes} {m : Member} {off : Nat},
      m ∈ ms → m.attr = .normal off →
      isUnsafeBitPattern btf
        (skipModsAndTypedefs btf (btf.types.length + 1) m.ty) = true →
      compositeLoop btf fuel true packed ms acc an = (.ok acc', an') →
      acc'.genImplDefault = true ∧
      ∃ fn d, maybeUninitEntry fn d ∈ acc'.impl := by
  induction ms with
  | nil =>
    intro acc acc' an an' m off hmem
    simp at hmem
  | cons m0 rest ih =>
    intro acc acc' an an' m off hmem hattr hunsf h
    rw [compositeLoop] at h
    rcases List.mem_cons.mp hmem with hm | hm
    · subst hm
      rw [hattr] at h
      dsimp only [] at h
      split at h
      · simp at h
      · rename_i acc1 an1 heq
        obtain ⟨h1, fn, d, h2⟩ := compositeStep_unsafe hunsf heq
        exact ⟨compositeLoop_gid rest h h1, fn, d,
          compositeLoop_impl_mem rest h h2⟩
    · split at h
      · exact ih hm hattr hunsf h
      · split at h
        · simp at h
        · rename_i acc1 an1 heq
          exact ih hm hattr hunsf h

theorem compositeTrailing_ok {c : Composite} {packed : Bool}
    {acc acc' : CompAcc} (h : compositeTrailing c packed acc = .ok acc') :
    acc'.genImplDefault = acc.genImplDefault ∧
    ∃ t, acc'.impl = acc.impl ++ t := by
  unfold compositeTrailing at h
  split at h
  · split at h
    · simp at h
    · split at h
      · simp only [Except.ok.injEq] at h
        rw [← h]
        exact ⟨rfl, _, rfl⟩
      · simp only [Except.ok.injEq] at h
        rw [← h]
        exact ⟨rfl, [], by rw [List.append_nil]⟩
  · simp only [Except.ok.injEq] at h
    rw [← h]
    exact ⟨rfl, [], by rw [List.append_nil]⟩

/-- Claim C3.
For a struct with a normal member whose qualifier/typedef-resolved type
is bit-pattern-unsafe, a successful `visit_composite` forces the
explicit (non-derived) default: the member loop reports
`genImplDefault`, the derive line omits `Default`, the emitted text ends
with the explicit `Default` impl, and its lines contain the unsafe
field's default wrapped in `MaybeUninit::new`. -/
theorem visitComposite_unsafeField (btf : Btf) (fuel : Nat) (c : Composite)
    (st : Session) (defn : String) (m : Member) (off : Nat)
    (res : List Nat × String) (st' : Session)
    (hmem : m ∈ c.members) (hattr : m.attr = .normal off)
    (hunsf : isUnsafeBitPattern btf
      (skipModsAndTypedefs btf (btf.types.length + 1) m.ty) = true)
    (hstruct : c.isStruct = true)
    (hfresh : st.visited.contains c.tid = false)
    (hok : visitComposite btf fuel c st defn = (.ok res, st')) :
    ∃ (packed : Bool) (acc : CompAcc) (name : String),
      acc.genImplDefault = true ∧
      (∃ fn d, maybeUninitEntry fn d ∈ acc.impl) ∧
      res.2 = defn ++ compositeHeader true packed true name acc.agg ++
        implDefaultBlock name acc.impl ∧
      compositeHeader true packed true name acc.agg =
        "#[derive(Debug, Copy, Clone)]\n" ++ "#[repr(C" ++
        (if packed then ", packed" else "") ++ ")]\n" ++ "pub " ++ "struct" ++
        " " ++ name ++ " \x7b\n" ++ joinLinesNl acc.agg ++ "\x7d\n" := by
  obtain ⟨ctid, cname, cis, csize, cmembers, calign⟩ := c
  have hcis : cis = true := hstruct
  subst hcis
  unfold visitComposite at hok
  simp only [hfresh, Bool.false_eq_true, if_false] at hok
  try dsimp only [] at hok
  split at hok
  · simp at hok
  · rename_i packed hpacked
    split at hok
    · simp at hok
    · rename_i acc0 an0 hloop
      try dsimp only [] at hok
      split at hok
      · simp at hok
      · rename_i acc1 htrail
        obtain ⟨hgid0, fn, d, hentry0⟩ :=
          compositeLoop_unsafe cmembers hmem hattr hunsf hloop
        obtain ⟨hgid1, t, himpl1⟩ := compositeTrailing_ok htrail
        have hgid : acc1.genImplDefault = true := by rw [hgid1]; exact hgid0
        have hentry : maybeUninitEntry fn d ∈ acc1.impl := by
          rw [himpl1]
          exact List.mem_append_left t hentry0
        rw [hgid] at hok
        rw [if_pos rfl] at hok
        simp only [Prod.mk.injEq, Except.ok.injEq] at hok
        obtain ⟨hres, hst⟩ := hok
        refine ⟨packed, acc1, (typeNameOrAnon an0 ctid cname).1,
          hgid, ⟨fn, d, hentry⟩, ?_, ?_⟩
        · rw [← hres]
        · simp [compositeHeader]

/-- Graph with a struct whose single field is a boolean-encoded integer. -/
def boolFieldBtf : Btf :=
  ⟨[⟨none, .void, none⟩,
    ⟨some "bool", .int 8 .boolE, some 1⟩,
    ⟨some "foo", .structK 1 [⟨some "x", 1, .normal 0⟩], some 1⟩], 8⟩

set_option maxRecDepth 4096 in
/-- Witness for C3: the bool-field struct of `boolFieldBtf` suppresses the
derived default and wraps the field's default in `MaybeUninit::new`. -/
theorem visitComposite_unsafeField_witness :
    ∃ (packed : Bool) (acc : CompAcc) (name : String),
      acc.genImplDefault = true ∧
      (∃ fn d, maybeUninitEntry fn d ∈ acc.impl) ∧
      (([], "#[derive(Debug, Copy, Clone)]\n#[repr(C)]\npub struct foo \x7b\n    pub x: std::mem::MaybeUninit<bool>,\n\x7d\nimpl Default for foo \x7b\n    fn default() -> Self \x7b\n        foo \x7b\n            x: std::mem::MaybeUninit::new(bool::default()),\n        \x7d\n    \x7d\n\x7d\n") :
        List Nat × String).2 =
        "" ++ compositeHeader true packed true name acc.agg ++
        implDefaultBlock name acc.impl ∧
      compositeHeader true packed true name acc.agg =
        "#[derive(Debug, Copy, Clone)]\n" ++ "#[repr(C" ++
        (if packed then ", packed" else "") ++ ")]\n" ++ "pub " ++ "struct" ++
        " " ++ name ++ " \x7b\n" ++ joinLinesNl acc.agg ++ "\x7d\n" :=
  visitComposite_unsafeField boolFieldBtf 10
    ⟨2, some "foo", true, 1, [⟨some "x", 1, .normal 0⟩], some 1⟩
    session0 "" ⟨some "x", 1, .normal 0⟩ 0
    ([], "#[derive(Debug, Copy, Clone)]\n#[repr(C)]\npub struct foo \x7b\n    pub x: std::mem::MaybeUninit<bool>,\n\x7d\nimpl Default for foo \x7b\n    fn default() -> Self \x7b\n        foo \x7b\n            x: std::mem::MaybeUninit::new(bool::default()),\n        \x7d\n    \x7d\n\x7d\n")
    ⟨⟨[]⟩, [2], [2]⟩ (by simp) rfl rfl rfl rfl (by rfl)

/-! ## Claim C10 -/

theorem typeNameOrAnon_grows (an : AnonTypes) (tid : Nat) (nm : Option String) :
    an.types <+: (typeNameOrAnon an tid nm).2.types := by
  unfold typeNameOrAnon
  split
  · exact List.prefix_refl _
  · split
    · exact List.prefix_refl _
    · exact List.prefix_append _ _

theorem typeDeclaration_grows (btf : Btf) :
    ∀ (fuel i : Nat) (an : AnonTypes),
      an.types <+: (typeDeclaration btf fuel i an).2.types := by
  intro fuel
  induction fuel with
  | zero => intro i an; exact List.prefix_refl _
  | succ n ih =>
    intro i an
    unfold typeDeclaration
    dsimp only []
    repeat' split
    all_goals try exact List.prefix_refl _
    all_goals try exact typeNameOrAnon_grows _ _ _
    all_goals try exact ih _ an
    all_goals
      (rename_i heq
       exact (congrArg Prod.snd heq) ▸ ih _ an)

theorem typeDefault_grows (btf : Btf) :
    ∀ (fuel i : Nat) (an : AnonTypes),
      an.types <+: (typeDefault btf fuel i an).2.types := by
  intro fuel
  induction fuel with
  | zero => intro i an; exact List.prefix_refl _
  | succ n ih =>
    intro i an
    unfold typeDefault
    dsimp only []
    repeat' split
    all_goals try exact List.prefix_refl _
    all_goals try exact typeNameOrAnon_grows _ _ _
    all_goals
      (rename_i heq
       first
       | exact (congrArg Prod.snd heq) ▸ ih _ an
       | exact (congrArg Prod.snd heq) ▸ typeDeclaration_grows btf (n + 1) _ an)

theorem datasecLoop_grows (btf : Btf) (fuel : Nat) :
    ∀ (vars : List DataSecVar) (off : Nat) (an : AnonTypes),
      an.types <+: (datasecLoop btf fuel vars off an).2.types := by
  intro vars
  induction vars with
  | nil => intro off an; exact List.prefix_refl _
  | cons dv rest ih =>
    intro off an
    unfold datasecLoop
    split
    · exact List.prefix_refl _
    · split
      · split
        · exact ih _ an
        · split
          · exact List.prefix_refl _
          · split
            · exact List.prefix_refl _
            · split
              all_goals split
              all_goals try exact List.prefix_refl _
              all_goals
                (cases htd : typeDeclaration btf fuel dv.ty an with
                 | mk res an1 =>
                   have h1 := typeDeclaration_grows btf fuel dv.ty an
                   rw [htd] at h1
                   cases res with
                   | error e => exact h1
                   | ok vtype =>
                     dsimp only []
                     cases hr : datasecLoop btf fuel rest
                         (dv.offset + dv.size) an1 with
                     | mk res2 an2 =>
                       have h2 := ih (dv.offset + dv.size) an1
                       rw [hr] at h2
                       cases res2 with
                       | error e2 => exact h1.trans h2
                       | ok pr =>
                         cases pr with
                         | mk deps body => exact h1.trans h2)
      · exact List.prefix_refl _

theorem fieldNameOf_grows (an : AnonTypes) (m : Member) (ftid : Nat)
    (fnode : BtfNode) : an.types <+: (fieldNameOf an m ftid fnode).2.types := by
  unfold fieldNameOf
  split
  · exact List.prefix_refl _
  · exact typeNameOrAnon_grows _ _ _

theorem compositeStepTail_grows (btf : Btf) (fuel memberOffset ftid : Nat)
    (fieldName : String) (acc : CompAcc) (an : AnonTypes) :
    an.types <+:
      (compositeStepTail btf fuel memberOffset ftid fieldName acc an).2.types := by
  unfold compositeStepTail
  split
  · exact List.prefix_refl _
  · cases htd : typeDeclaration btf fuel ftid an with
    | mk res an1 =>
      have h1 := typeDeclaration_grows btf fuel ftid an
      rw [htd] at h1
      cases res with
      | error e => exact h1
      | ok tdecl => exact h1

theorem compositeStepRest_grows (btf : Btf) (fuel : Nat) (isStruct : Bool)
    (memberOffset ftid : Nat) (fieldName : String) (acc : CompAcc)
    (an : AnonTypes) :
    an.types <+:
      (compositeStepRest btf fuel isStruct memberOffset ftid fieldName
        acc an).2.types := by
  unfold compositeStepRest
  cases htd : typeDefault btf fuel ftid an with
  | mk res an1 =>
    have h1 := typeDefault_grows btf fuel ftid an
    rw [htd] at h1
    cases res with
    | ok d =>
      dsimp only []
      exact h1.trans
        (compositeStepTail_grows btf fuel memberOffset ftid fieldName _ an1)
    | error f =>
      cases f with
      | abort msg => exact h1
      | error msg =>
        dsimp only []
        split
        · exact h1
        · exact h1.trans
            (compositeStepTail_grows btf fuel memberOffset ftid fieldName _ an1)

theorem compositeStepStruct_grows (btf : Btf) (fuel : Nat)
    (isStruct packed : Bool) (memberOffset : Nat) (rawAlign : Option Nat)
    (fkind : TypeKind) (ftid : Nat) (fieldName : String) (acc : CompAcc)
    (an : AnonTypes) :
    an.types <+:
      (compositeStepStruct btf fuel isStruct packed memberOffset rawAlign
        fkind ftid fieldName acc an).2.types := by
  unfold compositeStepStruct
  repeat' split
  all_goals try exact List.prefix_refl _
  all_goals
    (try dsimp only []
     exact compositeStepRest_grows btf fuel _ memberOffset ftid
       fieldName _ an)

theorem compositeStep_grows (btf : Btf) (fuel : Nat) (isStruct packed : Bool)
    (m : Member) (memberOffset : Nat) (acc : CompAcc) (an : AnonTypes) :
    an.types <+:
      (compositeStep btf fuel isStruct packed m memberOffset acc an).2.types := by
  unfold compositeStep
  split
  · exact List.prefix_refl _
  · dsimp only []
    split
    · exact List.prefix_refl _
    · split
      · exact List.prefix_refl _
      · exact List.IsPrefix.trans (fieldNameOf_grows an m _ _)
          (compositeStepStruct_grows btf fuel isStruct packed memberOffset
            _ _ _ _ _ _)

theorem compositeLoop_grows (btf : Btf) (fuel : Nat) (isStruct packed : Bool) :
    ∀ (ms : List Member) (acc : CompAcc) (an : AnonTypes),
      an.types <+:
        (compositeLoop btf fuel isStruct packed ms acc an).2.types := by
  intro ms
  induction ms with
  | nil => intro acc an; exact List.prefix_refl _
  | cons m rest ih =>
    intro acc an
    unfold compositeLoop
    split
    · exact ih acc an
    · split
      · rename_i mo hattr xp e an1 heq
        have h1 := compositeStep_grows btf fuel isStruct packed m mo acc an
        rw [heq] at h1
        exact h1
      · rename_i mo hattr xp acc1 an1 heq
        have h1 := compositeStep_grows btf fuel isStruct packed m mo acc an
        rw [heq] at h1
        exact h1.trans (ih acc1 an1)

theorem visitEnum_state (e : EnumView) (st : Session) (defn : String) :
    st.visited <+: (visitEnum e st defn).2.visited ∧
    st.anon.types <+: (visitEnum e st defn).2.anon.types := by
  cases hc : st.visited.contains e.tid with
  | true =>
    simp only [visitEnum, hc]
    rw [if_pos trivial]
    exact ⟨List.prefix_refl _, List.prefix_refl _⟩
  | false =>
    simp only [visitEnum, hc, Bool.false_eq_true, if_false, insertId_anon,
      insertId_visited]
    repeat' split
    all_goals constructor
    all_goals try exact List.prefix_append _ _
    all_goals try exact List.prefix_refl _
    all_goals exact typeNameOrAnon_grows _ _ _

theorem visitDatasec_state (btf : Btf) (fuel : Nat) (d : DataSecView)
    (st : Session) (defn : String) :
    st.visited <+: (visitDatasec btf fuel d st defn).2.visited ∧
    st.anon.types <+: (visitDatasec btf fuel d st defn).2.anon.types := by
  cases hc : st.visited.contains d.tid with
  | true =>
    simp only [visitDatasec, hc]
    rw [if_pos trivial]
    exact ⟨List.prefix_refl _, List.prefix_refl _⟩
  | false =>
    simp only [visitDatasec, hc, Bool.false_eq_true, if_false, insertId_anon,
      insertId_visited]
    split
    · exact ⟨List.prefix_append _ _, List.prefix_refl _⟩
    · split
      · exact ⟨List.prefix_append _ _, List.prefix_refl _⟩
      · cases hl : datasecLoop btf fuel d.vars 0 st.anon with
        | mk res an1 =>
          have h1 := datasecLoop_grows btf fuel d.vars 0 st.anon
          rw [hl] at h1
          cases res with
          | error e => exact ⟨List.prefix_append _ _, h1⟩
          | ok pr =>
            cases pr with
            | mk deps body => exact ⟨List.prefix_append _ _, h1⟩

theorem visitComposite_state (btf : Btf) (fuel : Nat) (c : Composite)
    (st : Session) (defn : String) :
    st.visited <+: (visitComposite btf fuel c st defn).2.visited ∧
    st.anon.types <+: (visitComposite btf fuel c st defn).2.anon.types := by
  cases hc : st.visited.contains c.tid with
  | true =>
    simp only [visitComposite, hc]
    rw [if_pos trivial]
    exact ⟨List.prefix_refl _, List.prefix_refl _⟩
  | false =>
    simp only [visitComposite, hc, Bool.false_eq_true, if_false, insertId_anon,
      insertId_visited]
    split
    · exact ⟨List.prefix_append _ _, List.prefix_refl _⟩
    · rename_i packed hp
      cases hl : compositeLoop btf fuel c.isStruct packed c.members
          ⟨0, [], [], false, []⟩ st.anon with
      | mk res an1 =>
        have h1 := compositeLoop_grows btf fuel c.isStruct packed c.members
          ⟨0, [], [], false, []⟩ st.anon
        rw [hl] at h1
        cases res with
        | error e => exact ⟨List.prefix_append _ _, h1⟩
        | ok acc0 =>
          dsimp only []
          split
          · exact ⟨List.prefix_append _ _, h1⟩
          · repeat' split
            all_goals exact ⟨List.prefix_append _ _,
              h1.trans (typeNameOrAnon_grows an1 _ _)⟩

theorem dispatchNode_state (btf : Btf) (fuel i : Nat) (node : BtfNode)
    (st : Session) (defn : String) :
    st.visited <+: (dispatchNode btf fuel i node st defn).2.visited ∧
    st.anon.types <+: (dispatchNode btf fuel i node st defn).2.anon.types := by
  unfold dispatchNode
  split
  · exact visitComposite_state btf fuel _ st defn
  · exact visitComposite_state btf fuel _ st defn
  · rename_i sz vs hkind
    split
    · rename_i defn' st' heq
      have h := visitEnum_state ⟨i, node.name, sz, vs⟩ st defn
      rw [heq] at h
      exact h
    · rename_i e st' heq
      have h := visitEnum_state ⟨i, node.name, sz, vs⟩ st defn
      rw [heq] at h
      exact h
  · exact visitDatasec_state btf fuel _ st defn
  · exact ⟨List.prefix_refl _, List.prefix_refl _⟩

theorem visitTypeHierarchy_state (btf : Btf) :
    ∀ (fuel : Nat) (ws : List Nat) (st : Session) (defn : String),
      st.visited <+: (visitTypeHierarchy btf fuel ws st defn).2.visited ∧
      st.anon.types <+: (visitTypeHierarchy btf fuel ws st defn).2.anon.types := by
  intro fuel
  induction fuel with
  | zero =>
    intro ws st defn
    cases ws with
    | nil => exact ⟨List.prefix_refl _, List.prefix_refl _⟩
    | cons i rest => exact ⟨List.prefix_refl _, List.prefix_refl _⟩
  | succ n ih =>
    intro ws st defn
    cases ws with
    | nil => exact ⟨List.prefix_refl _, List.prefix_refl _⟩
    | cons i rest =>
      simp only [visitTypeHierarchy]
      split
      · exact ⟨List.prefix_refl _, List.prefix_refl _⟩
      · rename_i node hnode
        have hd := dispatchNode_state btf n i node st defn
        split
        · rename_i deps defn' st' heq
          rw [heq] at hd
          have hw := ih (rest ++ deps) st' defn'
          exact ⟨hd.1.trans hw.1, hd.2.trans hw.2⟩
        · rename_i e st' heq
          rw [heq] at hd
          exact hd

theorem lookupAnon_append (l u : List (Nat × Nat)) (t k : Nat)
    (h : lookupAnon l t = some k) : lookupAnon (l ++ u) t = some k := by
  induction l with
  | nil => simp [lookupAnon] at h
  | cons p rest ih =>
    cases p with
    | mk k0 v0 =>
      by_cases hk : k0 = t
      · simp only [lookupAnon, hk, if_pos rfl] at h ⊢
        exact h
      · simp only [List.cons_append, lookupAnon, hk, if_false] at h ⊢
        exact ih h

/-- Claim C10.
A failing `type_definition` call does not roll session state back: the
caller-supplied visited set and the anonymous-name registry only grow
(the input is always a prefix of the output, error or not), names
already assigned keep resolving to the same counter, and no text is
returned on failure by construction; a later call reusing the same
visited set skips any id inserted earlier — each visitor returns
immediately, emitting nothing and discovering no dependents. -/
theorem typeDefinition_state_persistence (btf : Btf) (fuel i : Nat)
    (st : Session) :
    (st.visited <+: (typeDefinition btf fuel i st).2.visited ∧
     st.anon.types <+: (typeDefinition btf fuel i st).2.anon.types ∧
     ∀ t k, lookupAnon st.anon.types t = some k →
       lookupAnon (typeDefinition btf fuel i st).2.anon.types t = some k) ∧
    (∀ (c : Composite) (defn : String), st.visited.contains c.tid = true →
      visitComposite btf fuel c st defn = (.ok ([], defn), st)) ∧
    (∀ (e : EnumView) (defn : String), st.visited.contains e.tid = true →
      visitEnum e st defn = (.ok defn, st)) ∧
    (∀ (d : DataSecView) (defn : String), st.visited.contains d.tid = true →
      visitDatasec btf fuel d st defn = (.ok ([], defn), st)) := by
  have hpre : st.visited <+: (typeDefinition btf fuel i st).2.visited ∧
      st.anon.types <+: (typeDefinition btf fuel i st).2.anon.types := by
    unfold typeDefinition
    split
    · exact ⟨List.prefix_refl _, List.prefix_refl _⟩
    · split
      · exact ⟨List.prefix_refl _, List.prefix_refl _⟩
      · exact visitTypeHierarchy_state btf fuel [i] st ""
  refine ⟨⟨hpre.1, hpre.2, ?_⟩, ?_, ?_, ?_⟩
  · intro t k hk
    obtain ⟨u, hu⟩ := hpre.2
    rw [← hu]
    exact lookupAnon_append _ u t k hk
  · intro c defn hc
    simp only [visitComposite, hc]
    rw [if_pos trivial]
  · intro e defn hc
    simp only [visitEnum, hc]
    rw [if_pos trivial]
  · intro d defn hc
    simp only [visitDatasec, hc]
    rw [if_pos trivial]

/-- Witness for C10: a session whose registry already maps id 7 to
counter 1 and whose visited set already holds the struct id 2 of
`sharedStructBtf`: after a full `type_definition` call the mapping is
still in place, and a repeated visit of id 2 is skipped unchanged. -/
theorem typeDefinition_state_persistence_witness :
    lookupAnon (typeDefinition sharedStructBtf 10 5
      ⟨⟨[(7, 1)]⟩, [2], [2]⟩).2.anon.types 7 = some 1 ∧
    visitEnum ⟨2, some "E", 4, []⟩ ⟨⟨[(7, 1)]⟩, [2], [2]⟩ "x" =
      (.ok "x", ⟨⟨[(7, 1)]⟩, [2], [2]⟩) := by
  constructor
  · exact ((typeDefinition_state_persistence sharedStructBtf 10 5
      ⟨⟨[(7, 1)]⟩, [2], [2]⟩).1).2.2 7 1 rfl
  · exact ((typeDefinition_state_persistence sharedStructBtf 10 5
      ⟨⟨[(7, 1)]⟩, [2], [2]⟩).2).2.1 ⟨2, some "E", 4, []⟩ "x" rfl
